import Mathlib

/-!
Shallow embedding of the m3u-server ingestion/synchronization pipeline
(`m3u_server/scheduler_jobs.py`, `m3u_server/routes/filters.py`,
`m3u_server/models.py`) and proofs about it.

Modelling conventions:
* SQL datetimes are modelled as `Int` (seconds); nullable columns as `Option`.
* Python truthiness of a string value (`if text:`) is `s ≠ ""`; of a nullable
  string it additionally treats `None` as falsy.
* `re.search(pattern, text)` with `re.IGNORECASE` is modelled for literal
  (metacharacter-free) patterns: a case-insensitive substring search,
  unanchored, anywhere in the text.
* Python `dict` is an association list with insert-or-overwrite-in-place
  semantics (insertion order preserved); Python `set` accumulation is a list
  with add-if-absent.
* The HTTP fetch layer (`requests.get`) is outside the embedding: functions
  model everything from the fetched body (or parsed XML tree) onward.
-/

namespace M3uServer

/-- Python `str.strip()` whitespace class (no newlines appear inside a line). -/
def pyWs (c : Char) : Bool :=
  c = ' ' || c = '\t' || c = '\r' || c = '\x0b' || c = '\x0c' || c = '\n'

/-- Python `str.strip()` on a character list. -/
def pyStripL (l : List Char) : List Char :=
  ((l.dropWhile pyWs).reverse.dropWhile pyWs).reverse

/-- Python `str.strip()` on a string. -/
def pyStrip (s : String) : String :=
  String.mk (pyStripL s.toList)

/-- Python truthiness of a nullable string column (`None` and `""` are falsy). -/
def truthyOS : Option String → Bool
  | none => false
  | some s => s ≠ ""

/-- Python `str.lower()` on one character (the feeds are ASCII). -/
def lowerChar (c : Char) : Char :=
  if 'A' ≤ c && c ≤ 'Z' then Char.ofNat (c.toNat + 32) else c

/-- Python `str.lower()` on a character list. -/
def lowerL (l : List Char) : List Char :=
  l.map lowerChar

/-- Python `str.lower()` on a string. -/
def pyLower (s : String) : String :=
  String.mk (lowerL s.toList)

/-- Python `int(s)` for a decimal digit string. -/
def pyStrToNat (s : String) : Nat :=
  s.toList.foldl (fun n c => n * 10 + (c.toNat - 48)) 0

/-- Models `re.search(pattern, text)` under `re.IGNORECASE`, modelled for literal
patterns: the lowered pattern occurs contiguously anywhere in the lowered text. -/
def reSearch (pat text : String) : Bool :=
  decide (lowerL pat.toList <:+: lowerL text.toList)

/-- Helper `normalize_name` from `scheduler_jobs.py`: lower-case, keep `[a-z0-9]` only. -/
def normalize_name (name : String) : String :=
  String.mk ((lowerL name.toList).filter fun c =>
    ('a' ≤ c && c ≤ 'z') || ('0' ≤ c && c ≤ '9'))

/-- Attribute-key normalization `k.lower().replace('-', '_')`. -/
def normKey (s : String) : String :=
  String.mk ((lowerL s.toList).map fun c => if c = '-' then '_' else c)

/-- Python dict insert: overwrite in place if the key exists, else append. -/
def pyDictInsert {β : Type} (d : List (String × β)) (k : String) (v : β) :
    List (String × β) :=
  if d.any (fun p => p.1 = k) then
    d.map fun p => if p.1 = k then (k, v) else p
  else d ++ [(k, v)]

/-- Build a Python dict from a pair list (later pairs overwrite earlier keys). -/
def pyDictOf {β : Type} (l : List (String × β)) : List (String × β) :=
  l.foldl (fun d p => pyDictInsert d p.1 p.2) []

/-- Python `dict.get`. -/
def pyDictGet {β : Type} (d : List (String × β)) (k : String) : Option β :=
  (d.find? fun p => p.1 = k).map (·.2)

/-- Python `set.add` modelled on an (ordered) list: add if absent. -/
def pySetAdd (s : List String) (x : String) : List String :=
  if s.contains x then s else s ++ [x]

/-! ## Data model (`models.py`) -/

/-- Row of `m3u_sources`. -/
structure M3uSource where
  id : Nat
  url : String
  last_checked : Option Int
  enabled : Bool
  refresh_interval_hours : Nat
deriving DecidableEq, Repr

/-- Row of `epg_sources`. -/
structure EpgSource where
  id : Nat
  url : String
  last_checked : Option Int
  enabled : Bool
  refresh_interval_hours : Nat
deriving DecidableEq, Repr

/-- Row of `channels`. `name` is NOT NULL; the other string columns are nullable. -/
structure Channel where
  id : Nat
  name : String
  category : Option String
  tvg_id : Option String
  tvg_name : Option String
  tvg_logo : Option String
  channel_num : Option Nat
  enabled : Bool
  last_seen : Int
deriving DecidableEq, Repr

/-- Row of `urls`. -/
structure Url where
  id : Nat
  url : String
  channel_id : Nat
  last_seen : Int
deriving DecidableEq, Repr

/-- Row of `epg_data` (an EpgEntry). `channel_tvg_id` is NOT NULL. -/
structure EpgData where
  channel_tvg_id : String
  title : String
  start_time : Int
  end_time : Int
  description : Option String
deriving DecidableEq, Repr

/-- Row of `filters`. -/
structure Filter where
  id : Nat
  pattern : String
  description : Option String
  enabled : Bool
deriving DecidableEq, Repr

/-- The catalog store: all tables, plus fresh-id counters standing for the
autoincrement primary keys handed out by `flush()`. -/
structure ServerState where
  channels : List Channel
  urls : List Url
  epgEntries : List EpgData
  filters : List Filter
  m3uSources : List M3uSource
  epgSources : List EpgSource
  nextChannelId : Nat
  nextUrlId : Nat
deriving DecidableEq, Repr

/-- Application config bits read by the jobs. -/
structure AppConfig where
  disableChannelsWithoutEpg : Bool
  channelRetentionDays : Int
  epgRetentionHours : Int
deriving DecidableEq, Repr

/-! ## State Synchronizer (`_synchronize_channel_states_logic`) -/

/-- The texts a channel offers to regex filters:
`for text in [channel.name, channel.category] if text`. -/
def textsOf (c : Channel) : List String :=
  (if c.name = "" then [] else [c.name]) ++
    (match c.category with
     | none => []
     | some s => if s = "" then [] else [s])

/-- The test `any(p.search(text) for p in compiled_filters for text in [...] if text)`. -/
def channelBlockedByRegex (activeFilters : List Filter) (c : Channel) : Bool :=
  activeFilters.any fun f => (textsOf c).any fun t => reSearch f.pattern t

/-- The set `{row[0] for row in query(EpgData.channel_tvg_id).distinct() if row[0]}`:
the (distinct, truthy) tvg ids carrying EPG data. Modelled as a list used only
for membership, so dedup is omitted. -/
def epgIdSet (entries : List EpgData) : List String :=
  (entries.map (·.channel_tvg_id)).filter fun s => s ≠ ""

/-- The "no EPG" blocking rule: blocked when the rule is active and the channel
has no (truthy) tvg id, or its tvg id is not among those with EPG data. -/
def channelBlockedByNoEpg (active : Bool) (withEpg : List String) (c : Channel) :
    Bool :=
  if active then
    match c.tvg_id with
    | none => true
    | some t => t = "" || !(withEpg.contains t)
  else false

/-- Computes `should_be_enabled` for one channel, from the current catalog snapshot. -/
def shouldBeEnabled (cfg : AppConfig) (st : ServerState) (c : Channel) : Bool :=
  let active := st.filters.filter (·.enabled)
  let withEpg :=
    if cfg.disableChannelsWithoutEpg then epgIdSet st.epgEntries else []
  !(channelBlockedByRegex active c) &&
    !(channelBlockedByNoEpg cfg.disableChannelsWithoutEpg withEpg c)

/-- The two bulk updates, applied in source order: disable first, enable second
(enable wins on an id in both sets). -/
def syncUpdate (dis en : List Nat) (c : Channel) : Channel :=
  if en.contains c.id then { c with enabled := true }
  else if dis.contains c.id then { c with enabled := false }
  else c

/-- Result of one synchronizer run: the two update sets and the new state. -/
structure SyncRun where
  toDisable : List Nat
  toEnable : List Nat
  state : ServerState
deriving Repr

/-- Job `_synchronize_channel_states_logic`: collect the channels whose current
`enabled` differs from `should_be_enabled`, then bulk-update exactly those. -/
def syncStates (cfg : AppConfig) (st : ServerState) : SyncRun :=
  let dis := (st.channels.filter fun c =>
    c.enabled && !(shouldBeEnabled cfg st c)).map (·.id)
  let en := (st.channels.filter fun c =>
    !c.enabled && shouldBeEnabled cfg st c).map (·.id)
  ⟨dis, en, { st with channels := st.channels.map (syncUpdate dis en) }⟩

/-! ## Filter administration (`routes/filters.py`) -/

/-- Outcome of one admin filter mutation: the new `filters` table and whether
`trigger_apply_filters_job` (immediate re-synchronization) was scheduled. -/
structure FilterMutation where
  filters : List Filter
  jobScheduled : Bool
deriving DecidableEq, Repr

/-- The `manage_filters` POST path (filter creation): add the row, then trigger the
apply-filters job only when the new filter is enabled. -/
def manage_filters_create (filters : List Filter) (nextId : Nat)
    (pattern : String) (description : Option String) (enabled : Bool) :
    FilterMutation :=
  let nf : Filter := ⟨nextId, pattern, description, enabled⟩
  ⟨filters ++ [nf], nf.enabled⟩

/-- Route `toggle_filter`: flip the row's `enabled`, then trigger the apply-filters
job only when the filter was just enabled. A missing id is a 404 (no effect). -/
def toggle_filter (filters : List Filter) (fid : Nat) : FilterMutation :=
  match filters.find? (fun f => f.id = fid) with
  | none => ⟨filters, false⟩
  | some f =>
    ⟨filters.map fun g => if g.id = fid then { g with enabled := !g.enabled } else g,
     !f.enabled⟩

/-- Route `delete_filter`: remove the row; never schedules a synchronization job
("Deleting a filter does not automatically re-enable channels"). -/
def delete_filter (filters : List Filter) (fid : Nat) : FilterMutation :=
  match filters.find? (fun f => f.id = fid) with
  | none => ⟨filters, false⟩
  | some _ => ⟨filters.filter (fun f => f.id ≠ fid), false⟩

/-! ## Cleanup job (`scheduled_cleanup_job`) -/

/-- Job `scheduled_cleanup_job`: delete stale Urls, then Channels that are both
orphaned (no remaining Url row) and stale, then expired EpgEntries. -/
def scheduled_cleanup_job (cfg : AppConfig) (now : Int) (st : ServerState) :
    ServerState :=
  let channel_cutoff := now - cfg.channelRetentionDays * 86400
  let urls1 := st.urls.filter fun u => !(decide (u.last_seen < channel_cutoff))
  let channels1 := st.channels.filter fun c =>
    !((urls1.all fun u => u.channel_id != c.id) &&
      decide (c.last_seen < channel_cutoff))
  let epg_cutoff := now - cfg.epgRetentionHours * 3600
  let epg1 := st.epgEntries.filter fun e => !(decide (e.end_time < epg_cutoff))
  { st with urls := urls1, channels := channels1, epgEntries := epg1 }

/-! ## M3U parsing (`refresh_single_m3u_source`, lines 178–218) -/

/-- Characters matched by `[a-zA-Z0-9_-]` in the attribute regex. -/
def isAttrChar (c : Char) : Bool :=
  ('a' ≤ c && c ≤ 'z') || ('A' ≤ c && c ≤ 'Z') ||
    ('0' ≤ c && c ≤ '9') || c = '_' || c = '-'

/-- Fuel-driven scanner for `re.findall(r'([a-zA-Z0-9_-]+)="([^"]*)"', s)`:
at each position, a maximal `[a-zA-Z0-9_-]+` run immediately followed by
`="…"` yields a pair and scanning resumes past it; otherwise advance one
character. Fuel `≥ length` (each step drops at least one character). -/
def scanAttrsGo : Nat → List Char → List (String × String)
  | 0, _ => []
  | _ + 1, [] => []
  | fuel + 1, c :: rest =>
    if isAttrChar c then
      match rest.dropWhile isAttrChar with
      | a :: b :: rest2 =>
        if a = '=' && b = '"' then
          match rest2.dropWhile (· != '"') with
          | q :: rest4 =>
            if q = '"' then
              (String.mk (c :: rest.takeWhile isAttrChar),
                String.mk (rest2.takeWhile (· != '"'))) :: scanAttrsGo fuel rest4
            else scanAttrsGo fuel rest
          | [] => scanAttrsGo fuel rest
        else scanAttrsGo fuel rest
      | _ => scanAttrsGo fuel rest
    else scanAttrsGo fuel rest

/-- Runs `re.findall(r'([a-zA-Z0-9_-]+)="([^"]*)"', s)`. -/
def scanAttrs (l : List Char) : List (String × String) :=
  scanAttrsGo l.length l

/-- Models `re.match(r'#EXTINF:-?\d+\s*(.*),(.*)', line)` followed by the attribute
dict build and key normalization (lines 190–196): on success, the normalized
attribute dict with `display_name` set to the stripped display name. The two
greedy groups split the tail at its last comma. -/
def parseExtinf (line : List Char) : Option (List (String × String)) :=
  if "#EXTINF:".toList.isPrefixOf line then
    let r1 := line.drop 8
    let r2 := match r1 with
      | '-' :: r => r
      | r => r
    if r2.takeWhile Char.isDigit = [] then none
    else
      let r3 := (r2.dropWhile Char.isDigit).dropWhile pyWs
      if r3.contains ',' then
        let display := (r3.reverse.takeWhile (· != ',')).reverse
        let attrsStr := ((r3.reverse.dropWhile (· != ',')).drop 1).reverse
        let d1 := pyDictOf (scanAttrs attrsStr)
        let d2 := pyDictOf (d1.map fun p => (normKey p.1, p.2))
        some (pyDictInsert d2 "display_name" (String.mk (pyStripL display)))
      else none
  else none

/-- One parsed channel of the M3U map: its (first-seen) attribute dict and its
accumulated url set. -/
structure M3uItem where
  attrs : List (String × String)
  urls : List String
deriving DecidableEq, Repr

/-- Python `channel_name = attrs.get('tvg_name') or attrs.get('display_name')`
(Python `or`: first truthy operand). -/
def m3uChannelName (attrs : List (String × String)) : Option String :=
  match pyDictGet attrs "tvg_name" with
  | some s => if s ≠ "" then some s else pyDictGet attrs "display_name"
  | none => pyDictGet attrs "display_name"

/-- Record one url under its channel key (`parsed_channels` update, lines
212–215): create the entry on first sight, then set-add the url. -/
def m3uAddUrl (parsed : List (String × M3uItem)) (key : String)
    (attrs : List (String × String)) (u : String) : List (String × M3uItem) :=
  match pyDictGet parsed key with
  | some item =>
    parsed.map fun p =>
      if p.1 = key then (key, ⟨item.attrs, pySetAdd item.urls u⟩) else p
  | none => parsed ++ [(key, ⟨attrs, [u]⟩)]

/-- The main parse loop (lines 185–216): strip each line; blank lines are
skipped; `#EXTINF:` lines re-arm `current_extinf_data`; other comment lines are
ignored (keeping the pending EXTINF); a non-comment line with a pending EXTINF
is a stream url for it. -/
def parseM3uLoop :
    List (List Char) → Option (List (String × String)) →
      List (String × M3uItem) → List (String × M3uItem)
  | [], _, parsed => parsed
  | l :: ls, cur, parsed =>
    let line := pyStripL l
    if line = [] then parseM3uLoop ls cur parsed
    else if "#EXTINF:".toList.isPrefixOf line then
      parseM3uLoop ls (parseExtinf line) parsed
    else
      match cur with
      | some attrs =>
        if line.head? = some '#' then parseM3uLoop ls cur parsed
        else
          match m3uChannelName attrs with
          | some n =>
            if n = "" then parseM3uLoop ls none parsed
            else
              let key := match pyDictGet attrs "tvg_id" with
                | some t => if t ≠ "" then t else n
                | none => n
              parseM3uLoop ls none (m3uAddUrl parsed key attrs (String.mk line))
          | none => parseM3uLoop ls none parsed
      | none => parseM3uLoop ls cur parsed

/-- The check `if not lines or not lines[0].strip().startswith('#EXTM3U')`. -/
def m3uHeaderOk (lines : List String) : Bool :=
  match lines with
  | [] => false
  | l :: _ => "#EXTM3U".toList.isPrefixOf (pyStripL l.toList)

/-! ## M3U reconciler (`refresh_single_m3u_source`, lines 220–288) -/

/-- Look a channel row up by primary key. -/
def findChannel (st : ServerState) (cid : Nat) : Option Channel :=
  st.channels.find? (fun c => c.id = cid)

/-- Apply an update to the channel row with the given primary key. -/
def updateChannelRow (st : ServerState) (cid : Nat) (f : Channel → Channel) :
    ServerState :=
  { st with channels := st.channels.map fun c => if c.id = cid then f c else c }

/-- M3U channel resolution (lines 247–249): try the tvg-id index with the raw
(case-preserved) id when it is truthy, then fall back to the name index. -/
def m3uResolve (byTvg byName : List (String × Nat)) (tvg_id : Option String)
    (cname : String) : Option Nat :=
  let first : Option Nat :=
    match tvg_id with
    | some t => if t ≠ "" then pyDictGet byTvg t else none
    | none => none
  match first with
  | some cid => some cid
  | none => pyDictGet byName cname

/-- Python `int(s) if s and s.isdigit() else None` for `tvg_chno`. -/
def channelNumOf (attrs : List (String × String)) : Option Nat :=
  match pyDictGet attrs "tvg_chno" with
  | some s => if s ≠ "" && s.toList.all Char.isDigit then some (pyStrToNat s) else none
  | none => none

/-- Accumulator of the per-batch loop: the evolving store plus the two
in-memory channel indexes (tvg-id → row id, name → row id). -/
structure IngestAcc where
  st : ServerState
  byTvg : List (String × Nat)
  byName : List (String × Nat)
deriving Repr

/-- One url of the reconciliation (lines 273–278): a url not in the channel's
snapshot `existing_urls` set becomes a new row with `last_seen = start_time`;
an already-owned url only gets its `last_seen` refreshed. -/
def urlStep (t0 : Int) (cid : Nat) (existing : List String)
    (st1 : ServerState) (u : String) : ServerState :=
  if existing.contains u then
    { st1 with urls := st1.urls.map fun r =>
        if r.channel_id = cid && r.url = u then { r with last_seen := t0 }
        else r }
  else
    { st1 with
        urls := st1.urls ++ [⟨st1.nextUrlId, u, cid, t0⟩],
        nextUrlId := st1.nextUrlId + 1 }

/-- Reconcile the url set of one channel (lines 271–278), against the
channel's snapshot of existing url strings. -/
def reconcileUrls (t0 : Int) (cid : Nat) (urls : List String)
    (st : ServerState) : ServerState :=
  urls.foldl
    (urlStep t0 cid ((st.urls.filter fun u => u.channel_id = cid).map (·.url)))
    st

/-- Process one parsed channel of a batch (lines 232–278): resolve it against
the indexes, create or update the Channel row, refresh `last_seen`, and
reconcile its urls. -/
def processItem (t0 : Int) (acc : IngestAcc) (kv : String × M3uItem) :
    IngestAcc :=
  let attrs := kv.2.attrs
  let tvg_id := pyDictGet attrs "tvg_id"
  match m3uChannelName attrs with
  | none => acc
  | some cname =>
    if cname = "" then acc
    else
      let channel_num := channelNumOf attrs
      let logo_url := pyDictGet attrs "tvg_logo"
      let category := pyDictGet attrs "group_title"
      match m3uResolve acc.byTvg acc.byName tvg_id cname with
      | none =>
        let cid := acc.st.nextChannelId
        let newc : Channel :=
          { id := cid, name := cname, category := category, tvg_id := tvg_id,
            tvg_name := some ((pyDictGet attrs "tvg_name").getD cname),
            tvg_logo := logo_url, channel_num := channel_num,
            enabled := true, last_seen := t0 }
        let st1 : ServerState :=
          { acc.st with
              channels := acc.st.channels ++ [newc],
              nextChannelId := cid + 1 }
        let byTvg1 := match tvg_id with
          | some t => if t ≠ "" then pyDictInsert acc.byTvg t cid else acc.byTvg
          | none => acc.byTvg
        let byName1 := pyDictInsert acc.byName cname cid
        ⟨reconcileUrls t0 cid kv.2.urls st1, byTvg1, byName1⟩
      | some cid =>
        let st1 := updateChannelRow acc.st cid fun c =>
          let c1 := { c with name := cname }
          let c2 := if truthyOS logo_url then { c1 with tvg_logo := logo_url }
            else c1
          let c3 := if truthyOS category then { c2 with category := category }
            else c2
          let c4 := match channel_num with
            | some n => { c3 with channel_num := some n }
            | none => c3
          let c5 := if truthyOS tvg_id && !(truthyOS c4.tvg_id) then
              { c4 with tvg_id := tvg_id }
            else c4
          { c5 with last_seen := t0 }
        ⟨reconcileUrls t0 cid kv.2.urls st1, acc.byTvg, acc.byName⟩

/-- Split a list into chunks of `n` (the 500-key batches). Fuel-driven; fuel
`≥ length` suffices since every step consumes at least one element. -/
def listChunksGo {α : Type} : Nat → Nat → List α → List (List α)
  | _, _, [] => []
  | 0, _, x :: xs => [x :: xs]
  | fuel + 1, n, x :: xs =>
    (x :: xs.take (n - 1)) :: listChunksGo fuel n (xs.drop (n - 1))

/-- The `range(0, len(keys), batch_size)` slicing. -/
def listChunks {α : Type} (n : Nat) (l : List α) : List (List α) :=
  listChunksGo l.length n l

/-- Process one batch (lines 222–280): bulk-fetch candidate rows whose
`tvg_id` or `name` is in the batch key set, build the two indexes (the tvg-id
index from raw, case-preserved ids), then fold the batch's items. -/
def processBatch (t0 : Int) (st : ServerState)
    (batch : List (String × M3uItem)) : ServerState :=
  let keys := batch.map (·.1)
  let possible := st.channels.filter fun c =>
    (match c.tvg_id with
     | some t => keys.contains t
     | none => false) || keys.contains c.name
  let byTvg := pyDictOf ((possible.filter fun c => truthyOS c.tvg_id).map
    fun c => (c.tvg_id.getD "", c.id))
  let byName := pyDictOf (possible.map fun c => (c.name, c.id))
  (batch.foldl (processItem t0) ⟨st, byTvg, byName⟩).st

/-- Models `refresh_single_m3u_source` from the fetched body on: reject a missing
`#EXTM3U` header with zero writes; otherwise parse, reconcile in batches of
500, stamp the source's `last_checked`, and run the State Synchronizer.
Returns the new store and the number of parsed channels. -/
def m3uRefresh (cfg : AppConfig) (sourceId : Nat) (lines : List String)
    (t0 : Int) (st : ServerState) : ServerState × Nat :=
  if m3uHeaderOk lines then
    let parsed := parseM3uLoop (lines.map (·.toList)) none []
    let st1 := (listChunks 500 parsed).foldl (processBatch t0) st
    let st2 := { st1 with m3uSources := st1.m3uSources.map fun s =>
      if s.id = sourceId then { s with last_checked := some t0 } else s }
    ((syncStates cfg st2).state, parsed.length)
  else (st, 0)

/-! ## EPG ingestion (`refresh_single_epg_source`)

The XML tree and the `parse_xmltv_datetime` string parser are abstracted: an
`XmlProgrammeNode` carries the already-parsed timestamps (`none` standing for
a missing attribute or a failed parse), and a `display-name` that is absent or
has empty text is `none`/`some ""` (both falsy). Everything from the parsed
tree on is translated from the source. -/

/-- An XMLTV `<channel>` element. -/
structure XmlChannelNode where
  id : Option String
  display_name : Option String
  icon_src : Option String
deriving DecidableEq, Repr

/-- An XMLTV `<programme>` element, timestamps pre-parsed. -/
structure XmlProgrammeNode where
  channel : Option String
  start : Option Int
  stop : Option Int
  title : Option String
  desc : Option String
deriving DecidableEq, Repr

/-- A parsed XMLTV document. -/
structure XmltvDoc where
  channels : List XmlChannelNode
  programmes : List XmlProgrammeNode
deriving DecidableEq, Repr

/-- EPG channel resolution (lines 327–329): try the lower-cased tvg-id index
with the lower-cased incoming id, then fall back to the normalized-name index
when the display name is truthy. -/
def epgResolve (byTvg byNorm : List (String × Nat)) (idAttr : String)
    (display : Option String) : Option Nat :=
  match pyDictGet byTvg (pyLower idAttr) with
  | some cid => some cid
  | none =>
    match display with
    | some dn => if dn ≠ "" then pyDictGet byNorm (normalize_name dn) else none
    | none => none

/-- The tvg-id index of EPG ingestion (line 311): lower-cased truthy catalog
tvg ids (later rows overwrite earlier ones, as in a dict comprehension). -/
def epgBuildByTvg (st : ServerState) : List (String × Nat) :=
  pyDictOf ((st.channels.filter fun c => truthyOS c.tvg_id).map
    fun c => (pyLower (c.tvg_id.getD ""), c.id))

/-- The normalized-name index of EPG ingestion (line 312). -/
def epgBuildByNorm (st : ServerState) : List (String × Nat) :=
  pyDictOf (st.channels.map fun c => (normalize_name c.name, c.id))

/-- Handle one `<channel>` element (lines 317–341): skip falsy ids; on a
match, record the mapping and opportunistically backfill the catalog row's
`tvg_id` and `tvg_logo` when currently falsy. -/
def epgMapStep (byTvg byNorm : List (String × Nat))
    (acc : ServerState × List (String × Nat)) (node : XmlChannelNode) :
    ServerState × List (String × Nat) :=
  match node.id with
  | none => acc
  | some idAttr =>
    if idAttr = "" then acc
    else
      match epgResolve byTvg byNorm idAttr node.display_name with
      | none => acc
      | some cid =>
        let st1 := updateChannelRow acc.1 cid fun c =>
          let c1 := if !(truthyOS c.tvg_id) then { c with tvg_id := some idAttr }
            else c
          if truthyOS node.icon_src && !(truthyOS c1.tvg_logo) then
            { c1 with tvg_logo := node.icon_src }
          else c1
        (st1, pyDictInsert acc.2 idAttr cid)

/-- The channel-mapping pass of EPG ingestion: final store (with backfills)
and the `epg_to_db_channel_map` (XMLTV channel id → catalog row id). -/
def epgChannelMapRes (doc : XmltvDoc) (st : ServerState) :
    ServerState × List (String × Nat) :=
  doc.channels.foldl (epgMapStep (epgBuildByTvg st) (epgBuildByNorm st)) (st, [])

/-- Handle one `<programme>` element (lines 355–370): it survives when its
channel maps to a catalog row with a truthy `tvg_id`, both timestamps parsed,
and its stop is not before the run's start time. -/
def epgProgStep (chmap : List (String × Nat)) (st : ServerState) (t0 : Int)
    (out : List EpgData) (p : XmlProgrammeNode) : List EpgData :=
  match p.channel with
  | none => out
  | some pchan =>
    match pyDictGet chmap pchan with
    | none => out
    | some cid =>
      match findChannel st cid with
      | none => out
      | some c =>
        if truthyOS c.tvg_id then
          match p.start, p.stop with
          | some s, some e =>
            if e < t0 then out
            else out ++ [⟨c.tvg_id.getD "", p.title.getD "No Title", s, e,
              p.desc⟩]
          | _, _ => out
        else out

/-- Build the replacement programme rows (`new_programs`, lines 354–370). -/
def epgNewPrograms (chmap : List (String × Nat)) (st : ServerState) (t0 : Int)
    (progs : List XmlProgrammeNode) : List EpgData :=
  progs.foldl (epgProgStep chmap st t0) []

/-- Models `refresh_single_epg_source` from the parsed tree on: map `<channel>`
elements (with backfills), abort before any EpgEntry mutation when zero
channels mapped, else wholesale-replace the EpgEntries of the mapped tvg ids
with the surviving programmes, stamp `last_checked`, and synchronize. -/
def epgRefresh (cfg : AppConfig) (epgId : Nat) (doc : XmltvDoc) (t0 : Int)
    (st : ServerState) : ServerState :=
  let res := epgChannelMapRes doc st
  let st1 := res.1
  let chmap := res.2
  if chmap = [] then st1
  else
    let mappedTvgIds := chmap.filterMap fun p =>
      (findChannel st1 p.2).bind fun c =>
        if truthyOS c.tvg_id then c.tvg_id else none
    let entries1 := st1.epgEntries.filter fun e =>
      !(mappedTvgIds.contains e.channel_tvg_id)
    let newProgs := epgNewPrograms chmap st1 t0 doc.programmes
    let st2 := { st1 with epgEntries := entries1 ++ newProgs }
    let st3 := { st2 with epgSources := st2.epgSources.map fun s =>
      if s.id = epgId then { s with last_checked := some t0 } else s }
    (syncStates cfg st3).state

/-! ## Helper lemmas -/

theorem epgMapStep_fst_epgEntries (a b : List (String × Nat))
    (acc : ServerState × List (String × Nat)) (node : XmlChannelNode) :
    ((epgMapStep a b acc node).1).epgEntries = acc.1.epgEntries := by
  cases h1 : node.id with
  | none => simp [epgMapStep, h1]
  | some idAttr =>
    simp only [epgMapStep, h1]
    split
    · rfl
    · cases h2 : epgResolve a b idAttr node.display_name with
      | none => simp [h2]
      | some cid => simp [h2, updateChannelRow]

theorem foldl_epgMapStep_fst_epgEntries (a b : List (String × Nat))
    (l : List XmlChannelNode) (acc : ServerState × List (String × Nat)) :
    ((l.foldl (epgMapStep a b) acc).1).epgEntries = acc.1.epgEntries := by
  induction l generalizing acc with
  | nil => rfl
  | cons x xs ih => rw [List.foldl_cons, ih, epgMapStep_fst_epgEntries]

theorem epgChannelMapRes_fst_epgEntries (doc : XmltvDoc) (st : ServerState) :
    (epgChannelMapRes doc st).1.epgEntries = st.epgEntries := by
  unfold epgChannelMapRes
  exact foldl_epgMapStep_fst_epgEntries _ _ _ _

theorem syncStates_state_epgEntries (cfg : AppConfig) (st : ServerState) :
    (syncStates cfg st).state.epgEntries = st.epgEntries := rfl

theorem mem_epgProgStep (chmap : List (String × Nat)) (st : ServerState)
    (t0 : Int) (out : List EpgData) (p : XmlProgrammeNode) (y : EpgData)
    (hy : y ∈ epgProgStep chmap st t0 out p) : y ∈ out ∨ t0 ≤ y.end_time := by
  unfold epgProgStep at hy
  cases hc : p.channel with
  | none => rw [hc] at hy; exact Or.inl hy
  | some pchan =>
    rw [hc] at hy
    dsimp only at hy
    cases hg : pyDictGet chmap pchan with
    | none => rw [hg] at hy; exact Or.inl hy
    | some cid =>
      rw [hg] at hy
      dsimp only at hy
      cases hf : findChannel st cid with
      | none => rw [hf] at hy; exact Or.inl hy
      | some c =>
        rw [hf] at hy
        dsimp only at hy
        by_cases htv : truthyOS c.tvg_id = true
        · rw [if_pos htv] at hy
          cases hs : p.start with
          | none =>
            rw [hs] at hy
            cases p.stop <;> exact Or.inl hy
          | some s =>
            rw [hs] at hy
            cases hstp : p.stop with
            | none => rw [hstp] at hy; exact Or.inl hy
            | some e' =>
              rw [hstp] at hy
              dsimp only at hy
              by_cases hlt : e' < t0
              · rw [if_pos hlt] at hy; exact Or.inl hy
              · rw [if_neg hlt] at hy
                rcases List.mem_append.mp hy with h | h
                · exact Or.inl h
                · rcases List.mem_singleton.mp h with rfl
                  exact Or.inr (le_of_not_lt hlt)
        · rw [if_neg htv] at hy; exact Or.inl hy

theorem mem_epgNewPrograms (chmap : List (String × Nat)) (st : ServerState)
    (t0 : Int) (progs : List XmlProgrammeNode) (e : EpgData)
    (he : e ∈ epgNewPrograms chmap st t0 progs) : t0 ≤ e.end_time := by
  unfold epgNewPrograms at he
  suffices h : ∀ (l : List XmlProgrammeNode) (init : List EpgData),
      (∀ x ∈ init, t0 ≤ x.end_time) →
      ∀ x ∈ l.foldl (epgProgStep chmap st t0) init, t0 ≤ x.end_time by
    exact h progs [] (by intro x hx; cases hx) e he
  intro l
  induction l with
  | nil => intro init hinit x hx; exact hinit x hx
  | cons p ps ih =>
    intro init hinit x hx
    rw [List.foldl_cons] at hx
    refine ih _ ?_ x hx
    intro y hy
    rcases mem_epgProgStep chmap st t0 init p y hy with h | h
    · exact hinit y h
    · exact h

theorem contains_iff_mem {α : Type} [BEq α] [LawfulBEq α] (l : List α)
    (a : α) : l.contains a = true ↔ a ∈ l :=
  List.elem_iff

theorem mem_textsOf (c : Channel) (t : String) :
    t ∈ textsOf c ↔
      (t = c.name ∧ c.name ≠ "") ∨ (c.category = some t ∧ t ≠ "") := by
  cases h2 : c.category with
  | none =>
    by_cases h1 : c.name = "" <;> simp [textsOf, h1, h2]
  | some s =>
    by_cases h1 : c.name = "" <;> by_cases h3 : s = "" <;>
      simp [textsOf, h1, h2, h3] <;> aesop

theorem blockedRegex_iff (fs : List Filter) (c : Channel) :
    channelBlockedByRegex (fs.filter (·.enabled)) c = true ↔
      ∃ f ∈ fs, f.enabled = true ∧
        ((c.name ≠ "" ∧ lowerL f.pattern.toList <:+: lowerL c.name.toList) ∨
          (∃ s, c.category = some s ∧ s ≠ "" ∧
            lowerL f.pattern.toList <:+: lowerL s.toList)) := by
  unfold channelBlockedByRegex reSearch
  rw [List.any_eq_true]
  constructor
  · rintro ⟨f, hf, hany⟩
    rw [List.mem_filter] at hf
    rw [List.any_eq_true] at hany
    obtain ⟨t, ht, hsearch⟩ := hany
    rw [decide_eq_true_iff] at hsearch
    refine ⟨f, hf.1, hf.2, ?_⟩
    rcases (mem_textsOf c t).mp ht with ⟨heq, hne⟩ | ⟨hcat, hne⟩
    · subst heq
      exact Or.inl ⟨hne, hsearch⟩
    · exact Or.inr ⟨t, hcat, hne, hsearch⟩
  · rintro ⟨f, hf, hen, h⟩
    refine ⟨f, List.mem_filter.mpr ⟨hf, hen⟩, ?_⟩
    rw [List.any_eq_true]
    rcases h with ⟨hne, hs⟩ | ⟨s, hcat, hne, hs⟩
    · exact ⟨c.name, (mem_textsOf c c.name).mpr (Or.inl ⟨rfl, hne⟩),
        decide_eq_true hs⟩
    · exact ⟨s, (mem_textsOf c s).mpr (Or.inr ⟨hcat, hne⟩), decide_eq_true hs⟩

theorem mem_epgIdSet (entries : List EpgData) (t : String) :
    t ∈ epgIdSet entries ↔ ∃ e ∈ entries, e.channel_tvg_id = t ∧ t ≠ "" := by
  simp only [epgIdSet, List.mem_filter, List.mem_map, decide_eq_true_iff]
  constructor
  · rintro ⟨⟨e, he, rfl⟩, hne⟩
    exact ⟨e, he, rfl, hne⟩
  · rintro ⟨e, he, rfl, hne⟩
    exact ⟨⟨e, he, rfl⟩, hne⟩

theorem blockedNoEpg_iff (st : ServerState) (c : Channel)
    (hE : ∀ e ∈ st.epgEntries, e.channel_tvg_id ≠ "") :
    channelBlockedByNoEpg true (epgIdSet st.epgEntries) c = true ↔
      ¬ ∃ e ∈ st.epgEntries, some e.channel_tvg_id = c.tvg_id := by
  cases h : c.tvg_id with
  | none => simp [channelBlockedByNoEpg, h]
  | some t =>
    have hred : channelBlockedByNoEpg true (epgIdSet st.epgEntries) c =
        (decide (t = "") || !((epgIdSet st.epgEntries).contains t)) := by
      unfold channelBlockedByNoEpg
      rw [h]
      rfl
    rw [hred]
    constructor
    · rintro hlhs ⟨e, he, heq⟩
      have heq' : e.channel_tvg_id = t := by injection heq
      rw [Bool.or_eq_true] at hlhs
      rcases hlhs with h1 | h2
      · rw [decide_eq_true_iff] at h1
        exact hE e he (heq'.trans h1)
      · rw [Bool.not_eq_true'] at h2
        have hmem : t ∈ epgIdSet st.epgEntries :=
          (mem_epgIdSet _ _).mpr ⟨e, he, heq', heq' ▸ hE e he⟩
        have hcc := (contains_iff_mem _ _).mpr hmem
        rw [h2] at hcc
        exact Bool.false_ne_true hcc
    · intro hnex
      rw [Bool.or_eq_true]
      right
      rw [Bool.not_eq_true']
      by_cases hcont : (epgIdSet st.epgEntries).contains t = true
      · obtain ⟨e, he, heq, _⟩ :=
          (mem_epgIdSet _ _).mp ((contains_iff_mem _ _).mp hcont)
        exact absurd ⟨e, he, by rw [heq]⟩ hnex
      · exact Bool.eq_false_iff.mpr hcont

theorem shouldBe_false_iff (cfg : AppConfig) (st : ServerState) (c : Channel)
    (hE : ∀ e ∈ st.epgEntries, e.channel_tvg_id ≠ "") :
    shouldBeEnabled cfg st c = false ↔
      ((∃ f ∈ st.filters, f.enabled = true ∧
          ((c.name ≠ "" ∧ lowerL f.pattern.toList <:+: lowerL c.name.toList) ∨
            (∃ s, c.category = some s ∧ s ≠ "" ∧
              lowerL f.pattern.toList <:+: lowerL s.toList))) ∨
        (cfg.disableChannelsWithoutEpg = true ∧
          ¬ ∃ e ∈ st.epgEntries, some e.channel_tvg_id = c.tvg_id)) := by
  unfold shouldBeEnabled
  have hbool : ∀ a b : Bool, ((!a && !b) = false ↔ a = true ∨ b = true) := by
    decide
  rw [hbool]
  cases hcfg : cfg.disableChannelsWithoutEpg with
  | false => simp [channelBlockedByNoEpg, blockedRegex_iff]
  | true => simp [blockedRegex_iff, blockedNoEpg_iff st c hE]

theorem syncUpdate_fields (dis en : List Nat) (c : Channel) :
    (syncUpdate dis en c).id = c.id ∧ (syncUpdate dis en c).name = c.name ∧
      (syncUpdate dis en c).category = c.category ∧
      (syncUpdate dis en c).tvg_id = c.tvg_id := by
  unfold syncUpdate
  split_ifs <;> simp

theorem mem_ids_filter {l : List Channel} {p : Channel → Bool} {c : Channel}
    (hid : (l.map (·.id)).Nodup) (hc : c ∈ l) :
    c.id ∈ (l.filter p).map (·.id) ↔ p c = true := by
  constructor
  · intro h
    obtain ⟨d, hd, hide⟩ := List.mem_map.mp h
    have hdl := (List.mem_filter.mp hd).1
    have hpd := (List.mem_filter.mp hd).2
    have hdc : d = c := List.inj_on_of_nodup_map hid hdl hc hide
    rwa [hdc] at hpd
  · intro h
    exact List.mem_map.mpr ⟨c, List.mem_filter.mpr ⟨hc, h⟩, rfl⟩

theorem enabled_after_sync (cfg : AppConfig) (st : ServerState)
    (hid : (st.channels.map (·.id)).Nodup) (c : Channel)
    (hc : c ∈ st.channels) :
    (syncUpdate (syncStates cfg st).toDisable (syncStates cfg st).toEnable
      c).enabled = shouldBeEnabled cfg st c := by
  have hEn : c.id ∈ (syncStates cfg st).toEnable ↔
      (!c.enabled && shouldBeEnabled cfg st c) = true := mem_ids_filter hid hc
  have hDis : c.id ∈ (syncStates cfg st).toDisable ↔
      (c.enabled && !(shouldBeEnabled cfg st c)) = true := mem_ids_filter hid hc
  unfold syncUpdate
  by_cases h1 : c.id ∈ (syncStates cfg st).toEnable
  · rw [if_pos ((contains_iff_mem _ _).mpr h1)]
    have h := hEn.mp h1
    rw [Bool.and_eq_true] at h
    exact h.2.symm
  · rw [if_neg (fun hcc => h1 ((contains_iff_mem _ _).mp hcc))]
    by_cases h2 : c.id ∈ (syncStates cfg st).toDisable
    · rw [if_pos ((contains_iff_mem _ _).mpr h2)]
      have h := hDis.mp h2
      rw [Bool.and_eq_true] at h
      have h3 := h.2
      rw [Bool.not_eq_true'] at h3
      exact h3.symm
    · rw [if_neg (fun hcc => h2 ((contains_iff_mem _ _).mp hcc))]
      have hne : ¬ ((!c.enabled && shouldBeEnabled cfg st c) = true) :=
        fun h => h1 (hEn.mpr h)
      have hnd : ¬ ((c.enabled && !(shouldBeEnabled cfg st c)) = true) :=
        fun h => h2 (hDis.mpr h)
      cases hce : c.enabled <;> cases hsb : shouldBeEnabled cfg st c <;>
        simp [hce, hsb] at hne hnd ⊢

theorem shouldBeEnabled_congr (cfg : AppConfig) {st st' : ServerState}
    {c c' : Channel} (hf : st'.filters = st.filters)
    (he : st'.epgEntries = st.epgEntries) (h1 : c'.name = c.name)
    (h2 : c'.category = c.category) (h3 : c'.tvg_id = c.tvg_id) :
    shouldBeEnabled cfg st' c' = shouldBeEnabled cfg st c := by
  unfold shouldBeEnabled channelBlockedByRegex channelBlockedByNoEpg
  rw [hf, he]
  have ht : textsOf c' = textsOf c := by
    unfold textsOf
    rw [h1, h2]
  rw [ht, h3]

theorem find?_map_replace {β : Type} (k : String) (v : β) :
    ∀ (d : List (String × β)), d.any (fun p => p.1 = k) = true →
      (d.map fun p => if p.1 = k then (k, v) else p).find?
        (fun p => decide (p.1 = k)) = some (k, v) := by
  intro d
  induction d with
  | nil => intro h; simp at h
  | cons p ps ih =>
    intro h
    rw [List.map_cons]
    by_cases hp : p.1 = k
    · rw [if_pos hp]
      exact List.find?_cons_of_pos _ (by simp)
    · rw [if_neg hp]
      rw [List.find?_cons_of_neg _ (by simp [hp])]
      apply ih
      rcases List.any_eq_true.mp h with ⟨q, hq, hqk⟩
      rcases List.mem_cons.mp hq with rfl | hq'
      · exact absurd (of_decide_eq_true hqk) hp
      · exact List.any_eq_true.mpr ⟨q, hq', hqk⟩

theorem find?_no_key {β : Type} (k : String) :
    ∀ (d : List (String × β)), d.any (fun p => p.1 = k) = false →
      d.find? (fun p => decide (p.1 = k)) = none := by
  intro d h
  rw [List.find?_eq_none]
  intro x hx hpx
  have h2 : d.any (fun p => decide (p.1 = k)) = true :=
    List.any_eq_true.mpr ⟨x, hx, hpx⟩
  rw [h] at h2
  exact Bool.false_ne_true h2

theorem find?_append_of_none {α : Type} (p : α → Bool) :
    ∀ (d l2 : List α), (∀ x ∈ d, ¬ p x = true) →
      (d ++ l2).find? p = l2.find? p := by
  intro d l2 h
  induction d with
  | nil => rfl
  | cons a as ih =>
    rw [List.cons_append, List.find?_cons_of_neg _ (h a (List.mem_cons_self a as))]
    exact ih (fun x hx => h x (List.mem_cons_of_mem a hx))

theorem pyDictGet_insert_self {β : Type} (d : List (String × β)) (k : String)
    (v : β) : pyDictGet (pyDictInsert d k v) k = some v := by
  unfold pyDictInsert
  by_cases h : d.any (fun p => p.1 = k) = true
  · rw [if_pos h]
    unfold pyDictGet
    rw [find?_map_replace k v d h]
    rfl
  · rw [if_neg h]
    unfold pyDictGet
    rw [find?_append_of_none _ d [(k, v)] ?hnone]
    · rw [List.find?_cons_of_pos _ (by simp)]
      rfl
    case hnone =>
      intro x hx hpx
      exact h (List.any_eq_true.mpr ⟨x, hx, hpx⟩)

theorem pyDictGet_insert_ne {β : Type} (d : List (String × β))
    (k k' : String) (v : β) (hne : k' ≠ k) :
    pyDictGet (pyDictInsert d k v) k' = pyDictGet d k' := by
  unfold pyDictInsert
  by_cases h : d.any (fun p => p.1 = k) = true
  · rw [if_pos h]
    unfold pyDictGet
    congr 1
    clear h
    induction d with
    | nil => rfl
    | cons p ps ih =>
      rw [List.map_cons]
      by_cases hp : p.1 = k
      · rw [if_pos hp]
        rw [List.find?_cons_of_neg _ (by simp [Ne.symm hne]),
          List.find?_cons_of_neg _ (by simp [hp, Ne.symm hne])]
        exact ih
      · by_cases hp' : p.1 = k'
        · rw [if_neg hp]
          rw [List.find?_cons_of_pos _ (by simp [hp']),
            List.find?_cons_of_pos _ (by simp [hp'])]
        · rw [if_neg hp]
          rw [List.find?_cons_of_neg _ (by simp [hp']),
            List.find?_cons_of_neg _ (by simp [hp'])]
          exact ih
  · rw [if_neg h]
    unfold pyDictGet
    congr 1
    induction d with
    | nil => simp [Ne.symm hne]
    | cons p ps ih =>
      by_cases hp' : p.1 = k'
      · rw [List.cons_append, List.find?_cons_of_pos _ (by simp [hp']),
          List.find?_cons_of_pos _ (by simp [hp'])]
      · rw [List.cons_append, List.find?_cons_of_neg _ (by simp [hp']),
          List.find?_cons_of_neg _ (by simp [hp'])]
        exact ih (fun hTrue => h (by
          rcases List.any_eq_true.mp hTrue with ⟨q, hq, hqk⟩
          exact List.any_eq_true.mpr ⟨q, List.mem_cons_of_mem p hq, hqk⟩))

theorem pyDictGet_pyDictOf_mem {β : Type} (k : String) (v : β) :
    ∀ (l : List (String × β)), pyDictGet (pyDictOf l) k = some v →
      (k, v) ∈ l := by
  intro l
  induction l using List.reverseRecOn with
  | nil => intro h; simp [pyDictOf, pyDictGet] at h
  | append_singleton l' x ih =>
    intro h
    simp only [pyDictOf, List.foldl_append, List.foldl_cons, List.foldl_nil] at h
    by_cases hk : k = x.1
    · rw [hk, pyDictGet_insert_self] at h
      have hv : x.2 = v := Option.some_inj.mp h
      apply List.mem_append_right
      rw [hk, ← hv]
      simp
    · rw [pyDictGet_insert_ne _ _ _ _ hk] at h
      exact List.mem_append_left _ (ih h)

theorem pyDictGet_pyDictOf_isSome {β : Type} (k : String) :
    ∀ (l : List (String × β)), (∃ v, (k, v) ∈ l) →
      ∃ v, pyDictGet (pyDictOf l) k = some v := by
  intro l
  induction l using List.reverseRecOn with
  | nil => rintro ⟨v, hv⟩; cases hv
  | append_singleton l' x ih =>
    rintro ⟨v, hv⟩
    simp only [pyDictOf, List.foldl_append, List.foldl_cons, List.foldl_nil]
    by_cases hk : k = x.1
    · exact ⟨x.2, by rw [hk]; exact pyDictGet_insert_self _ _ _⟩
    · rcases List.mem_append.mp hv with h | h
      · obtain ⟨v', hv'⟩ := ih ⟨v, h⟩
        exact ⟨v', by rw [pyDictGet_insert_ne _ _ _ _ hk]; exact hv'⟩
      · rcases List.mem_singleton.mp h with rfl
        exact absurd rfl hk

/-! ## Claim theorems -/

/-- C9: the synchronizer evaluates a filter against a channel by a
case-insensitive (both sides lowered) unanchored search — the pattern may
occur anywhere inside the name or the category — and a null (or empty, which
Python treats the same as null) name or category is skipped and never counts
as a match. Regex patterns are modelled for literal patterns, for which
`re.search` is exactly substring search, not full-string matching. -/
theorem filter_match_is_ci_substring_skipping_null (fs : List Filter)
    (c : Channel) :
    channelBlockedByRegex (fs.filter (·.enabled)) c = true ↔
      ∃ f ∈ fs, f.enabled = true ∧
        ((c.name ≠ "" ∧ lowerL f.pattern.toList <:+: lowerL c.name.toList) ∨
          (∃ s, c.category = some s ∧ s ≠ "" ∧
            lowerL f.pattern.toList <:+: lowerL s.toList)) :=
  blockedRegex_iff fs c

/-- C1: after a synchronizer run, a channel is disabled iff some enabled
filter's pattern matches its name or category, or the no-EPG rule is active
and no EpgEntry's `channel_tvg_id` equals its `tvg_id`. Hypotheses: channel
primary keys are unique, and (as EPG ingestion guarantees) no EpgEntry has an
empty `channel_tvg_id`. -/
theorem sync_enabled_iff (cfg : AppConfig) (st : ServerState)
    (hid : (st.channels.map (·.id)).Nodup)
    (hE : ∀ e ∈ st.epgEntries, e.channel_tvg_id ≠ "")
    (c' : Channel) (hc' : c' ∈ (syncStates cfg st).state.channels) :
    c'.enabled = false ↔
      ((∃ f ∈ st.filters, f.enabled = true ∧
          ((c'.name ≠ "" ∧ lowerL f.pattern.toList <:+: lowerL c'.name.toList) ∨
            (∃ s, c'.category = some s ∧ s ≠ "" ∧
              lowerL f.pattern.toList <:+: lowerL s.toList))) ∨
        (cfg.disableChannelsWithoutEpg = true ∧
          ¬ ∃ e ∈ st.epgEntries, some e.channel_tvg_id = c'.tvg_id)) := by
  have hch : (syncStates cfg st).state.channels =
      st.channels.map
        (syncUpdate (syncStates cfg st).toDisable (syncStates cfg st).toEnable) :=
    rfl
  rw [hch] at hc'
  obtain ⟨c, hc, rfl⟩ := List.mem_map.mp hc'
  obtain ⟨_, hname, hcat, htvg⟩ :=
    syncUpdate_fields (syncStates cfg st).toDisable (syncStates cfg st).toEnable c
  rw [enabled_after_sync cfg st hid c hc, hname, hcat, htvg]
  exact shouldBe_false_iff cfg st c hE

/-- C1 witness: a channel whose category matches an enabled filter ends up
disabled, and the equivalence evaluates at it. -/
theorem sync_enabled_iff_witness :
    ((⟨1, "News", some "Sports", some "n1", none, none, none, false, 0⟩ :
        Channel).enabled = false ↔
      ((∃ f ∈ [(⟨1, "sport", none, true⟩ : Filter)], f.enabled = true ∧
          (((⟨1, "News", some "Sports", some "n1", none, none, none, false, 0⟩ :
              Channel).name ≠ "" ∧
            lowerL f.pattern.toList <:+:
              lowerL (⟨1, "News", some "Sports", some "n1", none, none, none,
                false, 0⟩ : Channel).name.toList) ∨
            (∃ s, (⟨1, "News", some "Sports", some "n1", none, none, none,
                false, 0⟩ : Channel).category = some s ∧ s ≠ "" ∧
              lowerL f.pattern.toList <:+: lowerL s.toList))) ∨
        ((⟨true, 3, 72⟩ : AppConfig).disableChannelsWithoutEpg = true ∧
          ¬ ∃ e ∈ [(⟨"n1", "T", 0, 10, none⟩ : EpgData)],
            some e.channel_tvg_id =
              (⟨1, "News", some "Sports", some "n1", none, none, none, false,
                0⟩ : Channel).tvg_id))) :=
  sync_enabled_iff ⟨true, 3, 72⟩
    ⟨[⟨1, "News", some "Sports", some "n1", none, none, none, true, 0⟩], [],
      [⟨"n1", "T", 0, 10, none⟩], [⟨1, "sport", none, true⟩], [], [], 2, 1⟩
    (by decide) (by decide)
    ⟨1, "News", some "Sports", some "n1", none, none, none, false, 0⟩
    (by decide)

/-- C2: the synchronizer is idempotent — run immediately again on the state it
produced (no intervening mutation), both bulk update sets of the second run
are empty, so it changes zero rows. -/
theorem sync_idempotent (cfg : AppConfig) (st : ServerState)
    (hid : (st.channels.map (·.id)).Nodup) :
    (syncStates cfg (syncStates cfg st).state).toDisable = [] ∧
      (syncStates cfg (syncStates cfg st).state).toEnable = [] := by
  have hch : (syncStates cfg st).state.channels =
      st.channels.map
        (syncUpdate (syncStates cfg st).toDisable (syncStates cfg st).toEnable) :=
    rfl
  have hkey : ∀ c' ∈ (syncStates cfg st).state.channels,
      c'.enabled = shouldBeEnabled cfg (syncStates cfg st).state c' := by
    intro c' hc'
    rw [hch] at hc'
    obtain ⟨c, hc, rfl⟩ := List.mem_map.mp hc'
    obtain ⟨_, hname, hcat, htvg⟩ := syncUpdate_fields _ _ c
    rw [enabled_after_sync cfg st hid c hc]
    exact (shouldBeEnabled_congr cfg rfl rfl hname hcat htvg).symm
  constructor
  · show (((syncStates cfg st).state.channels.filter fun c =>
      c.enabled && !(shouldBeEnabled cfg (syncStates cfg st).state c)).map
        (·.id)) = []
    rw [List.map_eq_nil_iff, List.filter_eq_nil_iff]
    intro c hc
    rw [hkey c hc]
    cases shouldBeEnabled cfg (syncStates cfg st).state c <;> simp
  · show (((syncStates cfg st).state.channels.filter fun c =>
      !c.enabled && shouldBeEnabled cfg (syncStates cfg st).state c).map
        (·.id)) = []
    rw [List.map_eq_nil_iff, List.filter_eq_nil_iff]
    intro c hc
    rw [hkey c hc]
    cases shouldBeEnabled cfg (syncStates cfg st).state c <;> simp

/-- C2 witness: after one run (which disables a matching channel), the second
run computes empty update sets. -/
theorem sync_idempotent_witness :
    (syncStates ⟨false, 3, 72⟩ (syncStates ⟨false, 3, 72⟩
        ⟨[⟨1, "News", none, none, none, none, none, true, 0⟩], [], [],
          [⟨1, "new", none, true⟩], [], [], 2, 1⟩).state).toDisable = [] ∧
      (syncStates ⟨false, 3, 72⟩ (syncStates ⟨false, 3, 72⟩
        ⟨[⟨1, "News", none, none, none, none, none, true, 0⟩], [], [],
          [⟨1, "new", none, true⟩], [], [], 2, 1⟩).state).toEnable = [] :=
  sync_idempotent ⟨false, 3, 72⟩
    ⟨[⟨1, "News", none, none, none, none, none, true, 0⟩], [], [],
      [⟨1, "new", none, true⟩], [], [], 2, 1⟩ (by decide)

/-- C6: an M3U ingestion run whose fetched body does not begin with a
`#EXTM3U` header line parses zero channels and performs zero writes: the
store (Channels, Urls, Sources, `last_checked` included) is returned
unchanged. -/
theorem m3u_bad_header_no_writes (cfg : AppConfig) (sid : Nat)
    (lines : List String) (t0 : Int) (st : ServerState)
    (h : m3uHeaderOk lines = false) :
    m3uRefresh cfg sid lines t0 st = (st, 0) := by
  simp [m3uRefresh, h]

/-- C6 witness: a body not starting with `#EXTM3U` is rejected unchanged. -/
theorem m3u_bad_header_no_writes_witness :
    m3uHeaderOk ["not a playlist", "#EXTINF:-1,X", "http://u"] = false ∧
      m3uRefresh ⟨false, 3, 72⟩ 1 ["not a playlist", "#EXTINF:-1,X", "http://u"]
        50 ⟨[], [], [], [], [⟨1, "http://src", none, true, 24⟩], [], 1, 1⟩ =
        (⟨[], [], [], [], [⟨1, "http://src", none, true, 24⟩], [], 1, 1⟩, 0) :=
  ⟨by decide,
   m3u_bad_header_no_writes ⟨false, 3, 72⟩ 1 _ 50 _ (by decide)⟩

/-- C5: an EPG ingestion run in which zero XMLTV channel elements map to a
catalog Channel terminates before any EpgEntry mutation: the EpgEntry table
is returned exactly as it was. -/
theorem epg_zero_map_no_entry_mutation (cfg : AppConfig) (eid : Nat)
    (doc : XmltvDoc) (t0 : Int) (st : ServerState)
    (h : (epgChannelMapRes doc st).2 = []) :
    (epgRefresh cfg eid doc t0 st).epgEntries = st.epgEntries := by
  simp only [epgRefresh, h, if_pos]
  simp [epgChannelMapRes_fst_epgEntries]

/-- C5 witness: a document whose only channel element matches nothing leaves
the one existing EpgEntry untouched. -/
theorem epg_zero_map_no_entry_mutation_witness :
    (epgChannelMapRes ⟨[⟨some "zzz", some "Nothing Like It", none⟩], []⟩
        ⟨[⟨1, "Alpha", none, some "bbc1", none, none, none, true, 0⟩], [],
          [⟨"bbc1", "Show", 0, 10, none⟩], [], [], [], 2, 1⟩).2 = [] ∧
      (epgRefresh ⟨false, 3, 72⟩ 4
          ⟨[⟨some "zzz", some "Nothing Like It", none⟩], []⟩ 100
          ⟨[⟨1, "Alpha", none, some "bbc1", none, none, none, true, 0⟩], [],
            [⟨"bbc1", "Show", 0, 10, none⟩], [], [], [], 2, 1⟩).epgEntries =
        [⟨"bbc1", "Show", 0, 10, none⟩] :=
  ⟨by decide,
   by rw [epg_zero_map_no_entry_mutation ⟨false, 3, 72⟩ 4 _ 100 _ (by decide)]⟩

/-- C7 (amended): during EPG ingestion every programme whose stop timestamp is
strictly less than the run's start time is discarded; consequently every
EpgEntry row present after the run that was not present before has
`end_time ≥ start time`. (A programme with `stop` exactly equal to the start
time is kept, refuting the "less than or equal" reading.) -/
theorem epg_discards_past_programmes (cfg : AppConfig) (eid : Nat)
    (doc : XmltvDoc) (t0 : Int) (st : ServerState) (e : EpgData)
    (he : e ∈ (epgRefresh cfg eid doc t0 st).epgEntries)
    (hnew : e ∉ st.epgEntries) : t0 ≤ e.end_time := by
  simp only [epgRefresh] at he
  by_cases hmap : (epgChannelMapRes doc st).2 = []
  · rw [if_pos hmap, epgChannelMapRes_fst_epgEntries] at he
    exact absurd he hnew
  · rw [if_neg hmap] at he
    rw [syncStates_state_epgEntries] at he
    rcases List.mem_append.mp he with h | h
    · have h2 := List.mem_filter.mp h
      rw [epgChannelMapRes_fst_epgEntries] at h2
      exact absurd h2.1 hnew
    · exact mem_epgNewPrograms _ _ _ _ _ h

/-- C7 witness: a new entry produced by an ingestion run has its stop at or
after the run's start time. -/
theorem epg_discards_past_programmes_witness :
    (⟨"bbc1", "New", 50, 150, none⟩ : EpgData) ∈
        (epgRefresh ⟨false, 3, 72⟩ 4
          ⟨[⟨some "bbc1", none, none⟩],
            [⟨some "bbc1", some 50, some 150, some "New", none⟩]⟩ 100
          ⟨[⟨1, "Alpha", none, some "bbc1", none, none, none, true, 0⟩], [],
            [], [], [], [], 2, 1⟩).epgEntries ∧
      (100 : Int) ≤ (⟨"bbc1", "New", 50, 150, none⟩ : EpgData).end_time :=
  ⟨by decide,
   epg_discards_past_programmes ⟨false, 3, 72⟩ 4
     ⟨[⟨some "bbc1", none, none⟩],
       [⟨some "bbc1", some 50, some 150, some "New", none⟩]⟩ 100
     ⟨[⟨1, "Alpha", none, some "bbc1", none, none, none, true, 0⟩], [], [], [],
       [], [], 2, 1⟩ ⟨"bbc1", "New", 50, 150, none⟩ (by decide) (by decide)⟩

/-- C7 counterexample: a programme whose stop equals the ingestion start time
(stop ≤ start) is NOT discarded — an EpgEntry is created for it, refuting the
claim as stated. -/
theorem epg_stop_eq_start_kept_cex :
    (epgRefresh ⟨false, 3, 72⟩ 4
        ⟨[⟨some "bbc1", none, none⟩],
          [⟨some "bbc1", some 50, some 100, some "Show", none⟩]⟩ 100
        ⟨[⟨1, "Alpha", none, some "bbc1", none, none, none, true, 0⟩], [],
          [], [], [], [], 2, 1⟩).epgEntries =
      [⟨"bbc1", "Show", 50, 100, none⟩] := by decide

/-- C4 counterexample: deleting a filter through the administrative interface
(`delete_filter`) mutates the Filter table but schedules NO re-synchronization
job, refuting "every Filter mutation … schedules an immediate
re-synchronization job". -/
theorem delete_filter_schedules_no_job_cex :
    (delete_filter [⟨1, "sport", none, true⟩] 1).filters = [] ∧
      (delete_filter [⟨1, "sport", none, true⟩] 1).jobScheduled = false := by
  decide

/-- C4 (amended): creating a filter schedules the immediate re-synchronization
job exactly when the new filter is enabled; toggling schedules it exactly when
the filter was just switched to enabled; deleting never schedules it. -/
theorem filter_mutations_job_scheduling (filters : List Filter) (nid fid : Nat)
    (p : String) (d : Option String) (e : Bool) (f : Filter)
    (hf : filters.find? (fun g => g.id = fid) = some f) :
    (manage_filters_create filters nid p d e).jobScheduled = e ∧
      (toggle_filter filters fid).jobScheduled = !f.enabled ∧
      (delete_filter filters fid).jobScheduled = false := by
  refine ⟨rfl, ?_, ?_⟩ <;> simp [toggle_filter, delete_filter, hf]

/-- C4 witness: on a one-row table, creating a disabled filter schedules no
job, toggling the (enabled) row schedules none, deleting schedules none. -/
theorem filter_mutations_job_scheduling_witness :
    (manage_filters_create [⟨1, "sport", none, true⟩] 2 "news" none false
        ).jobScheduled = false ∧
      (toggle_filter [⟨1, "sport", none, true⟩] 1).jobScheduled = !true ∧
      (delete_filter [⟨1, "sport", none, true⟩] 1).jobScheduled = false :=
  filter_mutations_job_scheduling [⟨1, "sport", none, true⟩] 2 1 "news" none
    false ⟨1, "sport", none, true⟩ (by decide)

/-- C10: the cleanup job deletes a Channel only when it has zero remaining Url
rows after the stale-Url deletion step AND its `last_seen` is older than the
retention cutoff; every channel still owning a Url row afterwards survives. -/
theorem cleanup_deletes_only_stale_orphans (cfg : AppConfig) (now : Int)
    (st : ServerState) (c : Channel) (hc : c ∈ st.channels) :
    (c ∉ (scheduled_cleanup_job cfg now st).channels →
      (∀ u ∈ (scheduled_cleanup_job cfg now st).urls, u.channel_id ≠ c.id) ∧
        c.last_seen < now - cfg.channelRetentionDays * 86400) ∧
      ((∃ u ∈ (scheduled_cleanup_job cfg now st).urls, u.channel_id = c.id) →
        c ∈ (scheduled_cleanup_job cfg now st).channels) := by
  have hurl : (scheduled_cleanup_job cfg now st).urls =
      st.urls.filter (fun u =>
        !(decide (u.last_seen < now - cfg.channelRetentionDays * 86400))) := rfl
  have hch : (scheduled_cleanup_job cfg now st).channels =
      st.channels.filter (fun c =>
        !(((st.urls.filter fun u =>
            !(decide (u.last_seen < now - cfg.channelRetentionDays * 86400))).all
              fun u => u.channel_id != c.id) &&
          decide (c.last_seen < now - cfg.channelRetentionDays * 86400))) := rfl
  rw [hurl, hch]
  set cut := now - cfg.channelRetentionDays * 86400 with hcutdef
  set urls1 := st.urls.filter (fun u => !(decide (u.last_seen < cut))) with hu1def
  set X := (urls1.all fun u => u.channel_id != c.id) && decide (c.last_seen < cut)
    with hXdef
  constructor
  · intro hdel
    have hpc : ¬ ((!X) = true) := fun h =>
      hdel (List.mem_filter.mpr ⟨hc, h⟩)
    have hb : X = true := by
      cases hx : X with
      | true => rfl
      | false => exact absurd (by rw [hx]; rfl) hpc
    rw [hXdef, Bool.and_eq_true] at hb
    refine ⟨?_, of_decide_eq_true hb.2⟩
    intro u hu heq
    have h2 := List.all_eq_true.mp hb.1 u hu
    rw [heq] at h2
    simp at h2
  · rintro ⟨u, hu, huc⟩
    apply List.mem_filter.mpr
    refine ⟨hc, ?_⟩
    have hall : (urls1.all fun u => u.channel_id != c.id) = false := by
      cases hx : (urls1.all fun u => u.channel_id != c.id) with
      | false => rfl
      | true =>
        have h2 := List.all_eq_true.mp hx u hu
        rw [huc] at h2
        simp at h2
    show (!((urls1.all fun u => u.channel_id != c.id) &&
      decide (c.last_seen < cut))) = true
    simp [hall]

/-- C10 witness: a channel that keeps a fresh Url row survives a cleanup that
deletes a stale orphan channel. -/
theorem cleanup_deletes_only_stale_orphans_witness :
    (⟨1, "Kept", none, none, none, none, none, true, 0⟩ : Channel) ∈
      (scheduled_cleanup_job ⟨false, 3, 72⟩ 1000000
        ⟨[⟨1, "Kept", none, none, none, none, none, true, 0⟩],
          [⟨1, "http://u", 1, 999999⟩], [], [], [], [], 2, 2⟩).channels :=
  (cleanup_deletes_only_stale_orphans ⟨false, 3, 72⟩ 1000000
      ⟨[⟨1, "Kept", none, none, none, none, none, true, 0⟩],
        [⟨1, "http://u", 1, 999999⟩], [], [], [], [], 2, 2⟩
      ⟨1, "Kept", none, none, none, none, none, true, 0⟩ (by decide)).2
    ⟨⟨1, "http://u", 1, 999999⟩, by decide, by decide⟩

/-- C3 counterexample: M3U ingestion does NOT match tvg ids case-insensitively.
With catalog channel `tvg_id="bbc1"`, the resolver rejects incoming `"BBC1"`,
and a full ingestion of a feed carrying `tvg-id="BBC1"` creates a second
channel instead of resolving to the existing one. -/
theorem m3u_tvg_match_case_sensitive_cex :
    m3uResolve [("bbc1", 5)] [] (some "BBC1") "Beta" = none ∧
      (m3uRefresh ⟨false, 3, 72⟩ 7
        ["#EXTM3U", "#EXTINF:-1 tvg-id=\"BBC1\",Beta", "http://y/1"] 1000
        ⟨[⟨5, "Alpha", none, some "bbc1", none, none, none, true, 0⟩], [], [],
          [], [], [], 6, 1⟩).1.channels.length = 2 := by decide

/-- C3 (amended): channel-matching rule 1 is tried before any name fallback in
both ingestion paths, but only EPG ingestion matches `tvg_id` up to letter
case (its index is keyed by lower-cased catalog tvg ids and probed with the
lower-cased incoming id); M3U ingestion matches the raw `tvg_id` exactly
(case-sensitively). Conjuncts: (1) M3U: an exact tvg-id index hit wins over
any name index; (2) EPG: a lowered tvg-id index hit wins over any
normalized-name index; (3) EPG resolution is invariant under case changes of
the incoming id; (4) EPG resolution succeeds whenever some catalog channel's
truthy tvg id equals the incoming id up to case, yielding such a channel. -/
theorem channel_matching_rule1_amended :
    (∀ (byTvg byName : List (String × Nat)) (t cname : String) (cid : Nat),
        t ≠ "" → pyDictGet byTvg t = some cid →
        m3uResolve byTvg byName (some t) cname = some cid) ∧
      (∀ (byTvg byNorm : List (String × Nat)) (i : String) (d : Option String)
          (cid : Nat), pyDictGet byTvg (pyLower i) = some cid →
          epgResolve byTvg byNorm i d = some cid) ∧
      (∀ (byTvg byNorm : List (String × Nat)) (i j : String)
          (d : Option String), pyLower i = pyLower j →
          epgResolve byTvg byNorm i d = epgResolve byTvg byNorm j d) ∧
      (∀ (st : ServerState) (i : String) (d : Option String),
        (∃ c ∈ st.channels, ∃ tv, c.tvg_id = some tv ∧ tv ≠ "" ∧
          pyLower tv = pyLower i) →
        ∃ cid,
          epgResolve (epgBuildByTvg st) (epgBuildByNorm st) i d = some cid ∧
          ∃ c ∈ st.channels, c.id = cid ∧ ∃ tv, c.tvg_id = some tv ∧
            pyLower tv = pyLower i) := by
  refine ⟨?_, ?_, ?_, ?_⟩
  · intro byTvg byName t cname cid ht hget
    simp [m3uResolve, ht, hget]
  · intro byTvg byNorm i d cid hget
    simp [epgResolve, hget]
  · intro byTvg byNorm i j d hij
    simp [epgResolve, hij]
  · rintro st i d ⟨c, hc, tv, htv, htvne, hlow⟩
    have hpair : (pyLower i, c.id) ∈
        ((st.channels.filter fun c => truthyOS c.tvg_id).map
          fun c => (pyLower (c.tvg_id.getD ""), c.id)) := by
      apply List.mem_map.mpr
      refine ⟨c, List.mem_filter.mpr ⟨hc, ?_⟩, ?_⟩
      · rw [htv]
        simpa [truthyOS] using htvne
      · rw [htv]
        simp [hlow]
    obtain ⟨cid, hcid⟩ := pyDictGet_pyDictOf_isSome (pyLower i) _ ⟨c.id, hpair⟩
    refine ⟨cid, ?_, ?_⟩
    · simp [epgResolve, epgBuildByTvg] at hcid ⊢
      rw [hcid]
    · have hmem := pyDictGet_pyDictOf_mem (pyLower i) cid _ hcid
      obtain ⟨c', hc', heq⟩ := List.mem_map.mp hmem
      have hc'mem := (List.mem_filter.mp hc').1
      have hc'truthy := (List.mem_filter.mp hc').2
      obtain ⟨k1, k2⟩ := Prod.mk.injEq .. ▸ heq
      cases htv' : c'.tvg_id with
      | none => rw [htv'] at hc'truthy; simp [truthyOS] at hc'truthy
      | some tv' =>
        refine ⟨c', hc'mem, ?_, tv', htv', ?_⟩
        · have := congrArg Prod.snd heq
          simpa using this
        · have h1 := congrArg Prod.fst heq
          simp only at h1
          rw [htv'] at h1
          simpa using h1

/-- C3 witness: the amended conjuncts evaluated at concrete indexes and a
concrete catalog. -/
theorem channel_matching_rule1_amended_witness :
    m3uResolve [("bbc1", 5)] [("Beta", 9)] (some "bbc1") "Beta" = some 5 ∧
      epgResolve [("bbc1", 5)] [("beta", 9)] "BBC1" (some "Beta") = some 5 ∧
      epgResolve [("bbc1", 5)] [("beta", 9)] "BBC1" none =
        epgResolve [("bbc1", 5)] [("beta", 9)] "bbc1" none ∧
      ∃ cid,
        epgResolve
          (epgBuildByTvg ⟨[⟨5, "Alpha", none, some "bbc1", none, none, none,
            true, 0⟩], [], [], [], [], [], 6, 1⟩)
          (epgBuildByNorm ⟨[⟨5, "Alpha", none, some "bbc1", none, none, none,
            true, 0⟩], [], [], [], [], [], 6, 1⟩) "BBC1" none = some cid ∧
        ∃ c ∈ (⟨[⟨5, "Alpha", none, some "bbc1", none, none, none, true, 0⟩],
            [], [], [], [], [], 6, 1⟩ : ServerState).channels,
          c.id = cid ∧ ∃ tv, c.tvg_id = some tv ∧ pyLower tv = pyLower "BBC1" :=
  ⟨channel_matching_rule1_amended.1 [("bbc1", 5)] [("Beta", 9)] "bbc1" "Beta" 5
      (by decide) (by decide),
   channel_matching_rule1_amended.2.1 [("bbc1", 5)] [("beta", 9)] "BBC1"
      (some "Beta") 5 (by decide),
   channel_matching_rule1_amended.2.2.1 [("bbc1", 5)] [("beta", 9)] "BBC1"
      "bbc1" none (by decide),
   channel_matching_rule1_amended.2.2.2
      ⟨[⟨5, "Alpha", none, some "bbc1", none, none, none, true, 0⟩], [], [],
        [], [], [], 6, 1⟩ "BBC1" none
      ⟨⟨5, "Alpha", none, some "bbc1", none, none, none, true, 0⟩, by decide,
        "bbc1", rfl, by decide, by decide⟩⟩

theorem takeWhile_append_of_all {α : Type} (p : α → Bool) :
    ∀ (l1 l2 : List α), (∀ a ∈ l1, p a = true) →
      (l1 ++ l2).takeWhile p = l1 ++ l2.takeWhile p := by
  intro l1 l2 h
  induction l1 with
  | nil => rfl
  | cons a as ih =>
    rw [List.cons_append, List.takeWhile_cons, if_pos (h a (List.mem_cons_self a as)),
      ih (fun x hx => h x (List.mem_cons_of_mem a hx)), List.cons_append]

theorem dropWhile_append_of_all {α : Type} (p : α → Bool) :
    ∀ (l1 l2 : List α), (∀ a ∈ l1, p a = true) →
      (l1 ++ l2).dropWhile p = l2.dropWhile p := by
  intro l1 l2 h
  induction l1 with
  | nil => rfl
  | cons a as ih =>
    rw [List.cons_append, List.dropWhile_cons, if_pos (h a (List.mem_cons_self a as)),
      ih (fun x hx => h x (List.mem_cons_of_mem a hx))]

theorem pyStripL_eq_self_of_ends (l : List Char)
    (h1 : ∀ c, l.head? = some c → pyWs c = false)
    (h2 : ∀ c, l.getLast? = some c → pyWs c = false) : pyStripL l = l := by
  unfold pyStripL
  have e1 : l.dropWhile pyWs = l := by
    cases hl : l with
    | nil => rfl
    | cons a as =>
      rw [List.dropWhile_cons, if_neg]
      rw [h1 a (by rw [hl]; rfl)]
      simp
  rw [e1]
  have e2 : l.reverse.dropWhile pyWs = l.reverse := by
    cases hr : l.reverse with
    | nil => rfl
    | cons a as =>
      rw [List.dropWhile_cons, if_neg]
      have hlast : l.getLast? = some a := by
        rw [← List.head?_reverse, hr]
        rfl
      rw [h2 a hlast]
      simp
  rw [e2, List.reverse_reverse]

/-- An `#EXTINF` metadata line carrying one `tvg-id` attribute, as in the
spec's duplicate-tvg-id example feed. -/
def extinfLine (t n : String) : String :=
  "#EXTINF:-1 tvg-id=\"" ++ t ++ "\"," ++ n

theorem extinfLine_toList (t n : String) :
    (extinfLine t n).toList =
      '#' :: 'E' :: 'X' :: 'T' :: 'I' :: 'N' :: 'F' :: ':' :: '-' :: '1' ::
        ' ' :: 't' :: 'v' :: 'g' :: '-' :: 'i' :: 'd' :: '=' :: '"' ::
        (t.toList ++ ('"' :: ',' :: n.toList)) := by
  have happ : ∀ a b : String, (a ++ b).toList = a.toList ++ b.toList :=
    fun a b => rfl
  show ((("#EXTINF:-1 tvg-id=\"" ++ t) ++ "\",") ++ n).toList = _
  rw [happ, happ, happ]
  simp

theorem scanAttrs_single_tvg (t : String) (ht1 : ∀ c ∈ t.toList, c ≠ '"') :
    scanAttrs (['t', 'v', 'g', '-', 'i', 'd', '=', '"'] ++
      (t.toList ++ ['"'])) = [("tvg-id", t)] := by
  unfold scanAttrs
  have hlen : (['t', 'v', 'g', '-', 'i', 'd', '=', '"'] ++
      (t.toList ++ ['"'])).length = (t.toList.length + 8) + 1 := by
    simp [List.length_append]
  rw [hlen]
  have hq : ∀ a ∈ t.toList, (a != '"') = true := by
    intro a ha
    simpa using ht1 a ha
  have hdrop2 : (t.toList ++ ['"']).dropWhile (· != '"') = ['"'] := by
    rw [dropWhile_append_of_all _ _ _ hq]
    rfl
  have htake2 : (t.toList ++ ['"']).takeWhile (· != '"') = t.toList := by
    rw [takeWhile_append_of_all _ _ _ hq]
    simp
  have hnil : scanAttrsGo (t.toList.length + 8) ([] : List Char) = [] := rfl
  show scanAttrsGo ((t.toList.length + 8) + 1)
    ('t' :: ('v' :: 'g' :: '-' :: 'i' :: 'd' :: '=' :: '"' ::
      (t.toList ++ ['"']))) = _
  rw [scanAttrsGo]
  rw [if_pos (by decide : isAttrChar 't' = true)]
  have hdrop1 : ('v' :: 'g' :: '-' :: 'i' :: 'd' :: '=' :: '"' ::
      (t.toList ++ ['"'])).dropWhile isAttrChar =
      '=' :: '"' :: (t.toList ++ ['"']) := rfl
  rw [hdrop1]
  dsimp only
  rw [if_pos (by decide : (('=' : Char) = '=' && ('"' : Char) = '"') = true)]
  rw [hdrop2]
  dsimp only
  rw [if_pos (rfl : ('"' : Char) = '"')]
  rw [htake2, hnil]
  have htake1 : ('v' :: 'g' :: '-' :: 'i' :: 'd' :: '=' :: '"' ::
      (t.toList ++ ['"'])).takeWhile isAttrChar = ['v', 'g', '-', 'i', 'd'] :=
    rfl
  rw [htake1]
  rfl

theorem parseExtinf_extinfLine (t n : String)
    (ht1 : ∀ c ∈ t.toList, c ≠ '"')
    (hn : ∀ c ∈ n.toList, c ≠ ',') :
    parseExtinf (extinfLine t n).toList =
      some [("tvg_id", t), ("display_name", pyStrip n)] := by
  rw [extinfLine_toList]
  have hstep : parseExtinf ('#' :: 'E' :: 'X' :: 'T' :: 'I' :: 'N' :: 'F' ::
      ':' :: '-' :: '1' :: ' ' :: 't' :: 'v' :: 'g' :: '-' :: 'i' :: 'd' ::
      '=' :: '"' :: (t.toList ++ ('"' :: ',' :: n.toList))) =
      (if ('t' :: 'v' :: 'g' :: '-' :: 'i' :: 'd' :: '=' :: '"' ::
          (t.toList ++ ('"' :: ',' :: n.toList))).contains ',' then
        let r3 := 't' :: 'v' :: 'g' :: '-' :: 'i' :: 'd' :: '=' :: '"' ::
          (t.toList ++ ('"' :: ',' :: n.toList))
        let display := (r3.reverse.takeWhile (· != ',')).reverse
        let attrsStr := ((r3.reverse.dropWhile (· != ',')).drop 1).reverse
        let d1 := pyDictOf (scanAttrs attrsStr)
        let d2 := pyDictOf (d1.map fun p => (normKey p.1, p.2))
        some (pyDictInsert d2 "display_name" (String.mk (pyStripL display)))
      else none) := rfl
  rw [hstep]
  have hcc : ('t' :: 'v' :: 'g' :: '-' :: 'i' :: 'd' :: '=' :: '"' ::
      (t.toList ++ ('"' :: ',' :: n.toList))).contains ',' = true := by
    rw [contains_iff_mem]
    simp
  rw [if_pos hcc]
  have hX : ('t' :: 'v' :: 'g' :: '-' :: 'i' :: 'd' :: '=' :: '"' ::
      (t.toList ++ ('"' :: ',' :: n.toList))) =
      (['t', 'v', 'g', '-', 'i', 'd', '=', '"'] ++ t.toList ++ ['"']) ++
        (',' :: n.toList) := by
    simp
  have hrev : ('t' :: 'v' :: 'g' :: '-' :: 'i' :: 'd' :: '=' :: '"' ::
      (t.toList ++ ('"' :: ',' :: n.toList))).reverse =
      n.toList.reverse ++ (',' ::
        ((['t', 'v', 'g', '-', 'i', 'd', '=', '"'] ++ t.toList ++
          ['"']).reverse)) := by
    rw [hX]
    rw [List.reverse_append]
    simp
  have hn' : ∀ a ∈ n.toList.reverse, (a != ',') = true := by
    intro a ha
    simpa using hn a (List.mem_reverse.mp ha)
  have hdisp : ((('t' :: 'v' :: 'g' :: '-' :: 'i' :: 'd' :: '=' :: '"' ::
      (t.toList ++ ('"' :: ',' :: n.toList))).reverse.takeWhile
        (· != ',')).reverse) = n.toList := by
    rw [hrev, takeWhile_append_of_all _ _ _ hn']
    have : ((',' :: ((['t', 'v', 'g', '-', 'i', 'd', '=', '"'] ++ t.toList ++
        ['"']).reverse)).takeWhile (· != ',')) = [] := by
      rw [List.takeWhile_cons]
      simp
    rw [this, List.append_nil, List.reverse_reverse]
  have hattr : (((('t' :: 'v' :: 'g' :: '-' :: 'i' :: 'd' :: '=' :: '"' ::
      (t.toList ++ ('"' :: ',' :: n.toList))).reverse.dropWhile
        (· != ',')).drop 1).reverse) =
      ['t', 'v', 'g', '-', 'i', 'd', '=', '"'] ++ (t.toList ++ ['"']) := by
    rw [hrev, dropWhile_append_of_all _ _ _ hn']
    have hstay : ((',' :: ((['t', 'v', 'g', '-', 'i', 'd', '=', '"'] ++
        t.toList ++ ['"']).reverse)).dropWhile (· != ',')) =
        (',' :: ((['t', 'v', 'g', '-', 'i', 'd', '=', '"'] ++ t.toList ++
          ['"']).reverse)) := by
      rw [List.dropWhile_cons]
      simp
    rw [hstay]
    show ((['t', 'v', 'g', '-', 'i', 'd', '=', '"'] ++ t.toList ++
      ['"']).reverse).reverse = _
    rw [List.reverse_reverse]
    simp
  simp only [hdisp, hattr]
  rw [scanAttrs_single_tvg t ht1]
  rfl

theorem pyStripL_eq_self_of_all {l : List Char}
    (h : ∀ c ∈ l, pyWs c = false) : pyStripL l = l :=
  pyStripL_eq_self_of_ends l
    (fun c hc => h c (List.mem_of_mem_head? hc))
    (fun c hc => h c (List.mem_of_mem_getLast? hc))

theorem pyStrip_eq_self_of_all {n : String}
    (h : ∀ c ∈ n.toList, pyWs c = false) : pyStrip n = n := by
  show String.mk (pyStripL n.toList) = n
  rw [pyStripL_eq_self_of_all h]
  rfl

theorem pyStripL_extinfLine (t n : String) (hn1 : n ≠ "")
    (hn2 : ∀ c ∈ n.toList, pyWs c = false) :
    pyStripL (extinfLine t n).toList = (extinfLine t n).toList := by
  apply pyStripL_eq_self_of_ends
  · intro c hc
    rw [extinfLine_toList] at hc
    have : c = '#' := by
      have h2 : some '#' = some c := hc
      injection h2 with h2
      exact h2.symm
    rw [this]
    rfl
  · intro c hc
    rw [extinfLine_toList] at hc
    have hle : ('#' :: 'E' :: 'X' :: 'T' :: 'I' :: 'N' :: 'F' :: ':' :: '-' ::
        '1' :: ' ' :: 't' :: 'v' :: 'g' :: '-' :: 'i' :: 'd' :: '=' :: '"' ::
        (t.toList ++ ('"' :: ',' :: n.toList))) =
        (('#' :: 'E' :: 'X' :: 'T' :: 'I' :: 'N' :: 'F' :: ':' :: '-' ::
          '1' :: ' ' :: 't' :: 'v' :: 'g' :: '-' :: 'i' :: 'd' :: '=' :: '"' ::
          (t.toList ++ ['"', ','])) ++ n.toList) := by
      simp
    rw [hle, List.getLast?_append] at hc
    have hnl : n.toList ≠ [] := fun h => hn1 (by
      have := congrArg String.mk h
      simpa using this)
    cases hnlast : n.toList.getLast? with
    | none =>
      rw [List.getLast?_eq_none_iff] at hnlast
      exact absurd hnlast hnl
    | some a =>
      rw [hnlast] at hc
      have : c = a := by
        have h2 : some a = some c := hc
        injection h2 with h2
        exact h2.symm
      rw [this]
      exact hn2 a (List.mem_of_mem_getLast? hnlast)

theorem parseM3uLoop_extinf_step (t n : String) (ls : List (List Char))
    (cur : Option (List (String × String))) (parsed : List (String × M3uItem))
    (hn1 : n ≠ "") (hn2 : ∀ c ∈ n.toList, pyWs c = false)
    (ht1 : ∀ c ∈ t.toList, c ≠ '"') (hn3 : ∀ c ∈ n.toList, c ≠ ',') :
    parseM3uLoop ((extinfLine t n).toList :: ls) cur parsed =
      parseM3uLoop ls (some [("tvg_id", t), ("display_name", n)]) parsed := by
  rw [parseM3uLoop.eq_def]
  dsimp only
  rw [pyStripL_extinfLine t n hn1 hn2]
  rw [if_neg (by rw [extinfLine_toList]; simp)]
  rw [if_pos (by rw [extinfLine_toList]; rfl)]
  rw [parseExtinf_extinfLine t n ht1 hn3, pyStrip_eq_self_of_all hn2]

theorem parseM3uLoop_url_step (t n u : String) (ls : List (List Char))
    (parsed : List (String × M3uItem)) (ht0 : t ≠ "") (hn0 : n ≠ "")
    (hu1 : pyStrip u = u) (hu2 : u ≠ "") (hu3 : u.toList.head? ≠ some '#') :
    parseM3uLoop (u.toList :: ls)
        (some [("tvg_id", t), ("display_name", n)]) parsed =
      parseM3uLoop ls none
        (m3uAddUrl parsed t [("tvg_id", t), ("display_name", n)] u) := by
  have hstripu : pyStripL u.toList = u.toList := congrArg String.toList hu1
  have hul : u.toList ≠ [] := fun h => hu2 (by
    have := congrArg String.mk h
    simpa using this)
  have hpre : ("#EXTINF:".toList.isPrefixOf u.toList) = false := by
    cases hc : u.toList with
    | nil => exact absurd hc hul
    | cons c cs =>
      have hch : ('#' == c) = false :=
        beq_eq_false_iff_ne.mpr fun h => hu3 (by rw [hc, ← h]; rfl)
      show (('#' == c) && ("EXTINF:".toList.isPrefixOf cs)) = false
      rw [hch]
      rfl
  rw [parseM3uLoop]
  rw [hstripu]
  rw [if_neg hul]
  rw [if_neg (fun hx => Bool.false_ne_true (hpre ▸ hx))]
  dsimp only
  rw [if_neg hu3]
  rw [show m3uChannelName [("tvg_id", t), ("display_name", n)] = some n from
    rfl]
  dsimp only
  rw [if_neg hn0]
  rw [show pyDictGet [("tvg_id", t), ("display_name", n)] "tvg_id" = some t
    from rfl]
  dsimp only
  rw [if_pos ht0]
  rfl

theorem pySetAdd_singleton (u1 u2 : String) :
    pySetAdd [u1] u2 = if u1 = u2 then [u1] else [u1, u2] := by
  unfold pySetAdd
  by_cases h : u1 = u2
  · subst h
    rw [if_pos ((contains_iff_mem _ _).mpr (List.mem_singleton.mpr rfl)),
      if_pos rfl]
  · rw [if_neg (fun hx =>
      h (List.mem_singleton.mp ((contains_iff_mem _ _).mp hx)).symm),
      if_neg h]
    rfl

theorem parseM3uLoop_dup_feed (t n1 n2 u1 u2 : String)
    (ht0 : t ≠ "") (ht1 : ∀ c ∈ t.toList, c ≠ '"')
    (hn1a : n1 ≠ "") (hn1b : ∀ c ∈ n1.toList, pyWs c = false)
    (hn1c : ∀ c ∈ n1.toList, c ≠ ',')
    (hn2a : n2 ≠ "") (hn2b : ∀ c ∈ n2.toList, pyWs c = false)
    (hn2c : ∀ c ∈ n2.toList, c ≠ ',')
    (hu1a : pyStrip u1 = u1) (hu1b : u1 ≠ "")
    (hu1c : u1.toList.head? ≠ some '#')
    (hu2a : pyStrip u2 = u2) (hu2b : u2 ≠ "")
    (hu2c : u2.toList.head? ≠ some '#') :
    parseM3uLoop ["#EXTM3U".toList, (extinfLine t n1).toList, u1.toList,
        (extinfLine t n2).toList, u2.toList] none [] =
      [(t, ⟨[("tvg_id", t), ("display_name", n1)],
        if u1 = u2 then [u1] else [u1, u2]⟩)] := by
  have h0 : parseM3uLoop ["#EXTM3U".toList, (extinfLine t n1).toList,
      u1.toList, (extinfLine t n2).toList, u2.toList] none [] =
      parseM3uLoop [(extinfLine t n1).toList, u1.toList,
        (extinfLine t n2).toList, u2.toList] none [] := rfl
  rw [h0]
  rw [parseM3uLoop_extinf_step t n1 _ none [] hn1a hn1b ht1 hn1c]
  rw [parseM3uLoop_url_step t n1 u1 _ [] ht0 hn1a hu1a hu1b hu1c]
  rw [show m3uAddUrl [] t [("tvg_id", t), ("display_name", n1)] u1 =
    [(t, ⟨[("tvg_id", t), ("display_name", n1)], [u1]⟩)] from rfl]
  rw [parseM3uLoop_extinf_step t n2 _ none _ hn2a hn2b ht1 hn2c]
  rw [parseM3uLoop_url_step t n2 u2 _ _ ht0 hn2a hu2a hu2b hu2c]
  rw [show ∀ p : List (String × M3uItem), parseM3uLoop [] none p = p from
    fun p => rfl]
  unfold m3uAddUrl
  rw [show pyDictGet [(t, (⟨[("tvg_id", t), ("display_name", n1)], [u1]⟩ :
      M3uItem))] t = some ⟨[("tvg_id", t), ("display_name", n1)], [u1]⟩ from by
    unfold pyDictGet
    rw [List.find?_cons_of_pos _ (by simp)]
    rfl]
  dsimp only
  rw [List.map_cons, List.map_nil, if_pos rfl]
  rw [pySetAdd_singleton]

theorem urlStep_channels (t0 : Int) (cid : Nat) (ex : List String)
    (st : ServerState) (u : String) :
    (urlStep t0 cid ex st u).channels = st.channels := by
  unfold urlStep
  split <;> rfl

theorem urlStep_m3uSources (t0 : Int) (cid : Nat) (ex : List String)
    (st : ServerState) (u : String) :
    (urlStep t0 cid ex st u).m3uSources = st.m3uSources := by
  unfold urlStep
  split <;> rfl

theorem foldl_urlStep_channels (t0 : Int) (cid : Nat) (ex : List String) :
    ∀ (us : List String) (st : ServerState),
      (us.foldl (urlStep t0 cid ex) st).channels = st.channels := by
  intro us
  induction us with
  | nil => intro st; rfl
  | cons u us ih =>
    intro st
    rw [List.foldl_cons, ih, urlStep_channels]

theorem foldl_urlStep_m3uSources (t0 : Int) (cid : Nat) (ex : List String) :
    ∀ (us : List String) (st : ServerState),
      (us.foldl (urlStep t0 cid ex) st).m3uSources = st.m3uSources := by
  intro us
  induction us with
  | nil => intro st; rfl
  | cons u us ih =>
    intro st
    rw [List.foldl_cons, ih, urlStep_m3uSources]

theorem reconcileUrls_channels (t0 : Int) (cid : Nat) (us : List String)
    (st : ServerState) : (reconcileUrls t0 cid us st).channels = st.channels :=
  foldl_urlStep_channels t0 cid _ us st

theorem foldl_urlStep_fresh (t0 : Int) (cid : Nat) :
    ∀ (us : List String) (st : ServerState),
      (∀ u ∈ st.urls, u.channel_id = cid) →
      ((us.foldl (urlStep t0 cid []) st).urls.length =
          st.urls.length + us.length ∧
        ∀ u ∈ (us.foldl (urlStep t0 cid []) st).urls, u.channel_id = cid) := by
  intro us
  induction us with
  | nil => intro st h; exact ⟨rfl, h⟩
  | cons u us ih =>
    intro st h
    rw [List.foldl_cons]
    have hstep : urlStep t0 cid [] st u =
        { st with
            urls := st.urls ++ [⟨st.nextUrlId, u, cid, t0⟩],
            nextUrlId := st.nextUrlId + 1 } := rfl
    rw [hstep]
    have hinv : ∀ v ∈ st.urls ++ [(⟨st.nextUrlId, u, cid, t0⟩ : Url)],
        v.channel_id = cid := by
      intro v hv
      rcases List.mem_append.mp hv with hv | hv
      · exact h v hv
      · rcases List.mem_singleton.mp hv with rfl
        rfl
    obtain ⟨hl, hc⟩ := ih { st with
        urls := st.urls ++ [⟨st.nextUrlId, u, cid, t0⟩],
        nextUrlId := st.nextUrlId + 1 } hinv
    refine ⟨?_, hc⟩
    rw [hl]
    dsimp only
    simp only [List.length_append, List.length_singleton, List.length_cons,
      List.length_nil]
    omega

theorem reconcileUrls_fresh (t0 : Int) (cid : Nat) (us : List String)
    (st : ServerState) (h : st.urls = []) :
    (reconcileUrls t0 cid us st).urls.length = us.length ∧
      ∀ u ∈ (reconcileUrls t0 cid us st).urls, u.channel_id = cid := by
  unfold reconcileUrls
  rw [h]
  have h2 := foldl_urlStep_fresh t0 cid us st (by rw [h]; intro u hu; cases hu)
  rw [h] at h2
  simpa using h2

theorem processItem_fresh (t0 : Int) (st : ServerState) (t n : String)
    (us : List String) (ht0 : t ≠ "") (hn0 : n ≠ "") :
    processItem t0 ⟨st, [], []⟩
        (t, ⟨[("tvg_id", t), ("display_name", n)], us⟩) =
      ⟨reconcileUrls t0 st.nextChannelId us
          { st with
              channels := st.channels ++ [⟨st.nextChannelId, n, none, some t,
                some n, none, none, true, t0⟩],
              nextChannelId := st.nextChannelId + 1 },
        pyDictInsert [] t st.nextChannelId,
        pyDictInsert [] n st.nextChannelId⟩ := by
  unfold processItem
  dsimp only
  rw [show m3uChannelName [("tvg_id", t), ("display_name", n)] = some n from
    rfl]
  dsimp only
  rw [if_neg hn0]
  rw [show m3uResolve ([] : List (String × Nat)) ([] : List (String × Nat))
      (pyDictGet [("tvg_id", t), ("display_name", n)] "tvg_id") n = none from
    by simp [m3uResolve, pyDictGet]]
  dsimp only
  rw [show pyDictGet [("tvg_id", t), ("display_name", n)] "tvg_id" = some t
    from rfl]
  dsimp only
  rw [if_pos ht0]
  rfl

theorem syncStates_state_urls (cfg : AppConfig) (st : ServerState) :
    (syncStates cfg st).state.urls = st.urls := rfl

theorem mem_syncStates_channels {cfg : AppConfig} {st : ServerState}
    {c' : Channel} (h : c' ∈ (syncStates cfg st).state.channels) :
    ∃ c, c ∈ st.channels ∧
      syncUpdate (syncStates cfg st).toDisable (syncStates cfg st).toEnable
        c = c' :=
  List.mem_map.mp h

theorem syncStates_channels_length (cfg : AppConfig) (st : ServerState) :
    (syncStates cfg st).state.channels.length = st.channels.length := by
  show (st.channels.map _).length = _
  rw [List.length_map]

theorem syncStates_countP_tvg (cfg : AppConfig) (st : ServerState)
    (t : String) :
    ((syncStates cfg st).state.channels.countP
        fun c => c.tvg_id == some t) =
      st.channels.countP fun c => c.tvg_id == some t := by
  show ((st.channels.map (syncUpdate _ _)).countP _) = _
  rw [List.countP_map]
  apply List.countP_congr
  intro c _
  show ((syncUpdate _ _ c).tvg_id == some t) = true ↔
    (c.tvg_id == some t) = true
  rw [(syncUpdate_fields _ _ c).2.2.2]

/-- C8: ingesting a feed that carries the same (truthy) `tvg_id` on two
metadata/url line pairs into an empty catalog yields exactly one Channel with
that tvg id; equal urls collapse to one Url row (set semantics), distinct urls
give two, and every Url row belongs to that channel. The string hypotheses
keep the constructed lines well formed: the tvg id is quote-free and nonempty,
the display names are nonempty with no commas or whitespace, and the url lines
are nonempty, strip-invariant, and not comment lines. -/
theorem m3u_duplicate_tvg_one_channel (cfg : AppConfig) (sid : Nat) (t0 : Int)
    (t n1 n2 u1 u2 : String)
    (ht0 : t ≠ "") (ht1 : ∀ c ∈ t.toList, c ≠ '"')
    (hn1a : n1 ≠ "") (hn1b : ∀ c ∈ n1.toList, pyWs c = false)
    (hn1c : ∀ c ∈ n1.toList, c ≠ ',')
    (hn2a : n2 ≠ "") (hn2b : ∀ c ∈ n2.toList, pyWs c = false)
    (hn2c : ∀ c ∈ n2.toList, c ≠ ',')
    (hu1a : pyStrip u1 = u1) (hu1b : u1 ≠ "")
    (hu1c : u1.toList.head? ≠ some '#')
    (hu2a : pyStrip u2 = u2) (hu2b : u2 ≠ "")
    (hu2c : u2.toList.head? ≠ some '#') :
    (m3uRefresh cfg sid ["#EXTM3U", extinfLine t n1, u1, extinfLine t n2, u2]
        t0 ⟨[], [], [], [], [], [], 1, 1⟩).1.channels.length = 1 ∧
      ((m3uRefresh cfg sid
          ["#EXTM3U", extinfLine t n1, u1, extinfLine t n2, u2]
          t0 ⟨[], [], [], [], [], [], 1, 1⟩).1.channels.countP
        fun c => c.tvg_id == some t) = 1 ∧
      (m3uRefresh cfg sid ["#EXTM3U", extinfLine t n1, u1, extinfLine t n2, u2]
          t0 ⟨[], [], [], [], [], [], 1, 1⟩).1.urls.length =
        (if u1 = u2 then 1 else 2) ∧
      ∀ c ∈ (m3uRefresh cfg sid
          ["#EXTM3U", extinfLine t n1, u1, extinfLine t n2, u2]
          t0 ⟨[], [], [], [], [], [], 1, 1⟩).1.channels,
        ∀ u ∈ (m3uRefresh cfg sid
          ["#EXTM3U", extinfLine t n1, u1, extinfLine t n2, u2]
          t0 ⟨[], [], [], [], [], [], 1, 1⟩).1.urls,
          u.channel_id = c.id := by
  have hmain :
      m3uRefresh cfg sid ["#EXTM3U", extinfLine t n1, u1, extinfLine t n2, u2]
        t0 ⟨[], [], [], [], [], [], 1, 1⟩ =
      ((syncStates cfg
        { reconcileUrls t0 1 (if u1 = u2 then [u1] else [u1, u2])
            ⟨[⟨1, n1, none, some t, some n1, none, none, true, t0⟩],
              [], [], [], [], [], 2, 1⟩ with
          m3uSources := (reconcileUrls t0 1 (if u1 = u2 then [u1] else [u1, u2])
            ⟨[⟨1, n1, none, some t, some n1, none, none, true, t0⟩],
              [], [], [], [], [], 2, 1⟩).m3uSources.map fun s =>
              if s.id = sid then { s with last_checked := some t0 }
              else s }).state,
        1) := by
    simp only [m3uRefresh]
    have hOK : ∀ rest : List String, m3uHeaderOk ("#EXTM3U" :: rest) = true :=
      fun rest => rfl
    rw [if_pos (hOK [extinfLine t n1, u1, extinfLine t n2, u2])]
    rw [show (["#EXTM3U", extinfLine t n1, u1, extinfLine t n2,
        u2].map (fun s => s.toList)) =
      ["#EXTM3U".toList, (extinfLine t n1).toList, u1.toList,
        (extinfLine t n2).toList, u2.toList] from rfl]
    rw [parseM3uLoop_dup_feed t n1 n2 u1 u2 ht0 ht1 hn1a hn1b hn1c hn2a hn2b
      hn2c hu1a hu1b hu1c hu2a hu2b hu2c]
    rw [show listChunks 500 [(t, (⟨[("tvg_id", t), ("display_name", n1)],
        if u1 = u2 then [u1] else [u1, u2]⟩ : M3uItem))] =
      [[(t, ⟨[("tvg_id", t), ("display_name", n1)],
        if u1 = u2 then [u1] else [u1, u2]⟩)]] from rfl]
    rw [show ([[(t, (⟨[("tvg_id", t), ("display_name", n1)],
        if u1 = u2 then [u1] else [u1, u2]⟩ : M3uItem))]].foldl
          (processBatch t0) ⟨[], [], [], [], [], [], 1, 1⟩) =
      (processItem t0 ⟨⟨[], [], [], [], [], [], 1, 1⟩, [], []⟩
        (t, ⟨[("tvg_id", t), ("display_name", n1)],
          if u1 = u2 then [u1] else [u1, u2]⟩)).st from rfl]
    rw [processItem_fresh t0 ⟨[], [], [], [], [], [], 1, 1⟩ t n1
      (if u1 = u2 then [u1] else [u1, u2]) ht0 hn1a]
    rfl
  have hRecUrls : (reconcileUrls t0 1 (if u1 = u2 then [u1] else [u1, u2])
      ⟨[⟨1, n1, none, some t, some n1, none, none, true, t0⟩],
        [], [], [], [], [], 2, 1⟩).urls.length =
        (if u1 = u2 then [u1] else [u1, u2]).length ∧
      ∀ u ∈ (reconcileUrls t0 1 (if u1 = u2 then [u1] else [u1, u2])
        ⟨[⟨1, n1, none, some t, some n1, none, none, true, t0⟩],
          [], [], [], [], [], 2, 1⟩).urls, u.channel_id = 1 :=
    reconcileUrls_fresh t0 1 _ _ rfl
  rw [hmain]
  refine ⟨?_, ?_, ?_, ?_⟩
  · rw [syncStates_channels_length]
    dsimp only
    rw [reconcileUrls_channels]
    rfl
  · rw [syncStates_countP_tvg]
    dsimp only
    rw [reconcileUrls_channels]
    simp [List.countP_cons]
  · rw [syncStates_state_urls]
    dsimp only
    rw [hRecUrls.1]
    by_cases h : u1 = u2 <;> simp [h]
  · intro c hc u hu
    rw [syncStates_state_urls] at hu
    dsimp only at hu
    have hcid := hRecUrls.2 u hu
    obtain ⟨c0, hc0, rfl⟩ := mem_syncStates_channels hc
    dsimp only at hc0
    rw [reconcileUrls_channels] at hc0
    rcases List.mem_singleton.mp hc0 with rfl
    rw [(syncUpdate_fields _ _ _).1]
    exact hcid

/-- C8 witness: the spec's example feed — the same tvg id `bbc1` on two pairs
with two distinct urls — yields one channel owning two Url rows. -/
theorem m3u_duplicate_tvg_one_channel_witness :
    (m3uRefresh ⟨false, 3, 72⟩ 9 ["#EXTM3U", extinfLine "bbc1" "BBCOne",
        "http://x/1", extinfLine "bbc1" "BBCOne", "http://x/2"] 500
        ⟨[], [], [], [], [], [], 1, 1⟩).1.channels.length = 1 ∧
      ((m3uRefresh ⟨false, 3, 72⟩ 9 ["#EXTM3U", extinfLine "bbc1" "BBCOne",
        "http://x/1", extinfLine "bbc1" "BBCOne", "http://x/2"] 500
        ⟨[], [], [], [], [], [], 1, 1⟩).1.channels.countP
          fun c => c.tvg_id == some "bbc1") = 1 ∧
      (m3uRefresh ⟨false, 3, 72⟩ 9 ["#EXTM3U", extinfLine "bbc1" "BBCOne",
        "http://x/1", extinfLine "bbc1" "BBCOne", "http://x/2"] 500
        ⟨[], [], [], [], [], [], 1, 1⟩).1.urls.length =
        (if ("http://x/1" : String) = "http://x/2" then 1 else 2) ∧
      ∀ c ∈ (m3uRefresh ⟨false, 3, 72⟩ 9 ["#EXTM3U", extinfLine "bbc1" "BBCOne",
        "http://x/1", extinfLine "bbc1" "BBCOne", "http://x/2"] 500
        ⟨[], [], [], [], [], [], 1, 1⟩).1.channels,
        ∀ u ∈ (m3uRefresh ⟨false, 3, 72⟩ 9 ["#EXTM3U",
          extinfLine "bbc1" "BBCOne", "http://x/1", extinfLine "bbc1" "BBCOne",
          "http://x/2"] 500 ⟨[], [], [], [], [], [], 1, 1⟩).1.urls,
          u.channel_id = c.id :=
  m3u_duplicate_tvg_one_channel ⟨false, 3, 72⟩ 9 500 "bbc1" "BBCOne" "BBCOne"
    "http://x/1" "http://x/2" (by decide) (by decide) (by decide) (by decide)
    (by decide) (by decide) (by decide) (by decide) (by decide) (by decide)
    (by decide) (by decide) (by decide) (by decide)

end M3uServer
